import Mathlib

/-!
# Shallow embedding of the TileDB fragment read engine

This file embeds the fragment read engine of `src/core/src/fragment/read_state.cc`
(class `ReadState`) in Lean 4 and proves properties of its specification.

Modelling conventions, used throughout:

* C `size_t` values are modelled as `Nat`.  Subtraction of `size_t` values is
  modelled by the wrapping operation `usub` (exact C semantics modulo `2^64`);
  addition and multiplication of in-range sizes never approach `2^64` in this
  engine and are modelled by plain `Nat` operations.
* C `int`/`int64_t` values (cell positions, tile positions, coordinates) are
  modelled as `Int`, with C division `/` modelled by `Int.tdiv` (truncation
  towards zero).  The engine instantiates its coordinate templates at
  `int`/`int64_t` (and, for sparse search dispatch, `float`/`double`); the
  embedding uses `Int` for the coordinate scalar, which covers the integer
  instantiations exactly.
* External collaborators (the array schema, the book-keeping view, the file
  system and the `gunzip` primitive — all declared outside the read engine)
  are inputs: they appear as explicit function parameters or as fields of an
  environment record, never as implementations.
* A failed C `assert` aborts the process; it is modelled as the distinct
  outcome `RC.assertFail`, which is never `RC.ok`.
* The caller's output buffers are observed through a log of `memcpy` writes
  `(start, length)`; no verified property depends on the copied byte values.
* Heap buffers read through untyped pointers (`size_t*` offset tiles, `T*`
  coordinate tiles) are modelled as total functions from cell position to
  value; positions outside the valid region return whatever the function
  yields there, exactly like the stale bytes the C buffer holds there.
-/

namespace TileDBRS

/-- Outcome of a fallible `ReadState` method: `TILEDB_RS_OK`, `TILEDB_RS_ERR`,
or a failed `assert` (which aborts the process; modelled as a distinct fatal
outcome that is never success). -/
inductive RC where
  | ok
  | err
  | assertFail
deriving DecidableEq, Repr

/-- Overlap type of a tile with the query range (read_state.h `Overlap`). -/
inductive Overlap where
  | none
  | full
  | partialContig
  | partialNonContig
deriving DecidableEq, Repr

/-- Cell order of the array schema (`ArraySchema::CellOrder`). -/
inductive CellOrder where
  | rowMajor
  | colMajor
  | hilbert
deriving DecidableEq, Repr

/-- Coordinate scalar type of the array schema (`ArraySchema::coords_type`). -/
inductive CoordsType where
  | cInt
  | cInt64
  | cFloat
  | cDouble
deriving DecidableEq, Repr

/-- Compression of an attribute (`ArraySchema::Compression`). -/
inductive Compression where
  | noCmp
  | gzip
deriving DecidableEq, Repr

/-- `2^64`, the modulus of C `size_t` arithmetic on the target platform. -/
def U64 : Nat := 18446744073709551616

/-- C `size_t` subtraction `a - b`: wraps modulo `2^64`.  Exact for operands
below `2^64`, which every size in the engine is. -/
def usub (a b : Nat) : Nat := (a + U64 - b % U64) % U64

/-- `TILEDB_CELL_VAR_OFFSET_SIZE`: a variable-cell offset is a `size_t`,
8 bytes. -/
def TILEDB_CELL_VAR_OFFSET_SIZE : Nat := 8

/-! ## C1 — `ReadState::compute_bytes_to_copy` (read_state.cc:251-311)

The helper that decides how many offset entries and variable bytes of a
variable-sized attribute fit into the caller's two buffers. -/

/-- The binary-search loop of `ReadState::compute_bytes_to_copy`
(read_state.cc:283-296).  `tile` is the fixed tile of the variable attribute
(`tiles_[attribute_id]` viewed as `const size_t*`): one variable-segment
offset per cell position.  The loop state is `(min, max, med)`; `med` enters
with the value it has before the loop (the source leaves it uninitialised and
every caller runs at least one iteration).  Returns the loop state at exit:
either `min > max` (normal exit) or a `break` on an exact fit. -/
def computeBytesToCopySearch (tile : Int → Nat) (startCellPos : Int)
    (bufferVarFreeSpace : Nat) :
    Nat → Int → Int → Int → Int × Int × Int
  | 0, mn, mx, med => (mn, mx, med)
  | fuel + 1, mn, mx, med =>
    if mn ≤ mx then
      let med' := mn + (mx - mn).tdiv 2
      let bytesVar := usub (tile med') (tile startCellPos)
      if bytesVar > bufferVarFreeSpace then
        computeBytesToCopySearch tile startCellPos bufferVarFreeSpace
          fuel mn (med' - 1) med'
      else if bytesVar < bufferVarFreeSpace then
        computeBytesToCopySearch tile startCellPos bufferVarFreeSpace
          fuel (med' + 1) mx med'
      else
        (mn, mx, med')
    else
      (mn, mx, med)

/-- `ReadState::compute_bytes_to_copy` (read_state.cc:251-311).

Inputs drawn from the read state at the call site: `cellNum` is
`overlapping_tiles_[overlapping_tiles_pos_[attribute_id]].cell_num_`, `tile`
is `tiles_[attribute_id]` viewed as `const size_t*`, and `tileVarSize` is
`tiles_var_sizes_[attribute_id]`.  Returns
`(bytes_to_copy, bytes_var_to_copy)`.  The search fuel bounds the loop by the
size of the interval `[start_cell_pos, end_cell_pos]` plus two, which the
halving loop can never exceed. -/
def computeBytesToCopy (cellNum : Int) (tile : Int → Nat) (tileVarSize : Nat)
    (startCellPos endCellPos : Int)
    (bufferFreeSpace bufferVarFreeSpace : Nat) : Nat × Nat :=
  if bufferFreeSpace = 0 ∨ bufferVarFreeSpace = 0 then (0, 0)
  else
    let bytesVar :=
      if endCellPos + 1 < cellNum then
        usub (tile (endCellPos + 1)) (tile startCellPos)
      else
        usub tileVarSize (tile startCellPos)
    if bytesVar > bufferVarFreeSpace then
      let fuel := (endCellPos - startCellPos).toNat + 2
      let r := computeBytesToCopySearch tile startCellPos bufferVarFreeSpace
                 fuel startCellPos endCellPos 0
      let mn := r.1
      let mx := r.2.1
      let med := r.2.2
      let endCellPos' := if mx < mn then mx - 1 else med
      let bytesVar' := usub (tile (endCellPos' + 1)) (tile startCellPos)
      (((endCellPos' - startCellPos + 1) * (TILEDB_CELL_VAR_OFFSET_SIZE : Int)).toNat,
       bytesVar')
    else
      (((endCellPos - startCellPos + 1) * (TILEDB_CELL_VAR_OFFSET_SIZE : Int)).toNat,
       bytesVar)

/-- The offset tile of the C1 failing input: a tile of three variable cells
whose (rebased) variable-segment offsets are `0, 5, 10` — each of the first
two cells holds 5 variable bytes. -/
def c1Tile : Int → Nat := fun i => if i ≤ 0 then 0 else if i = 1 then 5 else 10

/-- A `size_t` addition, reduced modulo `2^64` (exact C semantics). -/
def w64 (n : Nat) : Nat := n % U64

/-! ## C2 — `ReadState::copy_from_tile_buffer_partial_non_contig_dense`
(read_state.cc:1443-1549)

The slab-walk copy for a dense fixed-size attribute whose tile overlaps the
query range in a non-contiguous box.  The quantities the source derives from
the array schema and the overlap range (lines 1476-1498) enter as parameters:

* `rangeStartOffset`/`rangeEndOffset`: `get_cell_pos` of the overlap-range
  corner cells times `cell_size` (`range_end_offset` is the last byte of the
  last slab);
* `rangeSlabSize` = `cell_num_in_range_slab * cell_size`,
  `tileSlabSize` = `cell_num_in_tile_slab * cell_size`.

Writes into the caller's buffer are observed as a log of `(start, length)`
`memcpy` records. -/

/-- Result of one call to the slab-walk copy: the `memcpy` log into the
caller's buffer, the final `buffer_offset` and `tiles_offsets_[attribute_id]`,
the attribute's overflow flag, and whether `overlapping_tiles_pos_` was
advanced (tile done). -/
structure CopyPNCDenseResult where
  writes : List (Nat × Nat)
  bufferOffset : Nat
  tilesOffset : Nat
  overflow : Bool
  tileDone : Bool
deriving DecidableEq, Repr

/-- The `while` loop of read_state.cc:1517-1535 ("copy rest of the slabs"),
fuel-bounded.  State: `(buffer_offset, tiles_offsets_[attribute_id])` plus the
accumulated write log (reversed). -/
def copyPNCDenseLoop (bufferSize rangeEndOffset rangeSlabSize tileSlabSize : Nat) :
    Nat → Nat → Nat → List (Nat × Nat) → List (Nat × Nat) × Nat × Nat
  | 0, bufferOffset, tilesOffset, writes => (writes.reverse, bufferOffset, tilesOffset)
  | fuel + 1, bufferOffset, tilesOffset, writes =>
    if bufferOffset ≠ bufferSize ∧ tilesOffset ≠ w64 (rangeEndOffset + 1) then
      let bufferFreeSpace := usub bufferSize bufferOffset
      let bytesToCopy := min rangeSlabSize bufferFreeSpace
      let writes' := (bufferOffset, bytesToCopy) :: writes
      let bufferOffset' := w64 (bufferOffset + bytesToCopy)
      let tilesOffset' := w64 (tilesOffset + bytesToCopy)
      let tilesOffset'' :=
        if bytesToCopy = rangeSlabSize ∧ tilesOffset' ≠ w64 (rangeEndOffset + 1) then
          w64 (tilesOffset' + usub tileSlabSize bytesToCopy)
        else tilesOffset'
      copyPNCDenseLoop bufferSize rangeEndOffset rangeSlabSize tileSlabSize
        fuel bufferOffset' tilesOffset'' writes'
    else
      (writes.reverse, bufferOffset, tilesOffset)

/-- `ReadState::copy_from_tile_buffer_partial_non_contig_dense`
(read_state.cc:1443-1549), for one attribute.  `tilesSize` is
`tiles_sizes_[attribute_id]`; `bufferOffset` and `tilesOffset` are the
in/out cursors.  Note line 1504 of the source bounds the first `memcpy` by
`buffer_size`, not by `buffer_free_space`. -/
def copyFromTileBufferPartialNonContigDense
    (rangeStartOffset rangeEndOffset rangeSlabSize tileSlabSize : Nat)
    (tilesSize : Nat) (fuel : Nat)
    (bufferSize bufferOffset tilesOffset : Nat) : CopyPNCDenseResult :=
  let bufferFreeSpace := usub bufferSize bufferOffset
  if bufferFreeSpace = 0 then
    ⟨[], bufferOffset, tilesOffset, true, false⟩
  else
    let tOff0 := if tilesOffset < rangeStartOffset then rangeStartOffset else tilesOffset
    let currentSlabStartOffset :=
      (usub tOff0 rangeStartOffset) / tileSlabSize * tileSlabSize + rangeStartOffset
    let currentSlabEndOffset := usub (w64 (currentSlabStartOffset + rangeSlabSize)) 1
    let bytesInCurrentSlabLeftToCopy := w64 (usub currentSlabEndOffset tOff0 + 1)
    let bytesToCopy := min bytesInCurrentSlabLeftToCopy bufferSize
    let writes0 := [(bufferOffset, bytesToCopy)]
    let bufferOffset0 := w64 (bufferOffset + bytesToCopy)
    let tOff1 := w64 (tOff0 + bytesToCopy)
    let tOff2 :=
      if bytesToCopy = bytesInCurrentSlabLeftToCopy ∧ tOff1 ≠ w64 (rangeEndOffset + 1) then
        w64 (tOff1 + usub tileSlabSize rangeSlabSize)
      else tOff1
    let r := copyPNCDenseLoop bufferSize rangeEndOffset rangeSlabSize tileSlabSize
               fuel bufferOffset0 tOff2 []
    let writes := writes0 ++ r.1
    let bufferOffsetF := r.2.1
    let tOffF := r.2.2
    if tOffF = w64 (rangeEndOffset + 1) then
      ⟨writes, bufferOffsetF, tilesSize, false, true⟩
    else
      ⟨writes, bufferOffsetF, tOffF, true, false⟩

/-! ## C4 — `ReadState::clean_up_processed_overlapping_tiles`
(read_state.cc:215-249)

The reaper that retires overlapping-tile entries all attributes have passed.
`attributeIds` is `fragment_->array()->attribute_ids()` (the requested
attributes); `pos` is `overlapping_tiles_pos_` (indices `0 … attribute_num`,
where index `attribute_num` is the coordinate slot). -/

/-- The minimum computation of read_state.cc:223-226.  Note the source
initialises `min_pos` with `overlapping_tiles_pos_[0]` — the cursor of
attribute id `0` — and then folds over `attribute_ids[1…]`. -/
def cleanUpMinPos (attributeIds : List Nat) (pos : Nat → Int) : Int :=
  (attributeIds.drop 1).foldl (fun m a => if pos a < m then pos a else m) (pos 0)

/-- `ReadState::clean_up_processed_overlapping_tiles` (read_state.cc:215-249):
returns the overlapping-tiles list after erasing the first `min_pos` entries
and the updated cursor map (every non-zero cursor among
`0 … attribute_num` decremented by `min_pos`). -/
def cleanUpProcessedOverlappingTiles {α : Type} (attributeNum : Nat)
    (attributeIds : List Nat) (pos : Nat → Int) (tiles : List α) :
    List α × (Nat → Int) :=
  let minPos := cleanUpMinPos attributeIds pos
  if minPos ≠ 0 then
    (tiles.drop minPos.toNat,
     fun i => if i < attributeNum + 1 ∧ pos i ≠ 0 then pos i - minPos else pos i)
  else
    (tiles, pos)

/-- C4 failing input: the cursor map of a query that requests only attribute
`1` of an array with two attributes (ids `0`, `1`; coordinate slot `2`).
Attribute `1` has consumed two overlapping tiles; the unrequested attribute
`0` and the coordinate slot were never advanced. -/
def c4Pos : Nat → Int := fun i => if i = 1 then 2 else 0

/-! ## C5 — `ReadState::init_range_in_tile_domain<T>` (read_state.cc:2959-3004)

Computed once at read-state creation for dense arrays.  `domain`, `range` and
`tileDomain` are the flattened `[lo_0, hi_0, lo_1, hi_1, …]` views of the
schema's domain, the query range and the schema's tile domain; `tileExtents`
gives one extent per dimension.  `T` is instantiated at the integer coordinate
types, so C `/` is `Int.tdiv`. -/

/-- `range_in_tile_domain[2*i]` (read_state.cc:2978-2980). -/
def rangeInTileDomainLo (domain tileExtents range tileDomain : Nat → Int)
    (i : Nat) : Int :=
  max ((range (2 * i) - domain (2 * i)).tdiv (tileExtents i)) (tileDomain (2 * i))

/-- `range_in_tile_domain[2*i+1]` (read_state.cc:2981-2983). -/
def rangeInTileDomainHi (domain tileExtents range tileDomain : Nat → Int)
    (i : Nat) : Int :=
  min ((range (2 * i + 1) - domain (2 * i)).tdiv (tileExtents i))
    (tileDomain (2 * i + 1))

/-- The overlap-check loop of read_state.cc:2987-2994: `overlap` stays `true`
iff no dimension trips the condition (the `break` does not change the final
value of the flag). -/
def rangeTileDomainOverlap (dimNum : Nat)
    (domain tileExtents range tileDomain : Nat → Int) : Bool :=
  (List.range dimNum).all fun i =>
    if rangeInTileDomainLo domain tileExtents range tileDomain i >
         tileDomain (2 * i + 1) ∨
       rangeInTileDomainHi domain tileExtents range tileDomain i <
         tileDomain (2 * i)
    then false else true

/-- `ReadState::init_range_in_tile_domain<T>` (read_state.cc:2959-3004):
returns the list of overlapping-tile entries pushed (by overlap kind; the
sentinel entry of read_state.cc:2997-3003 has `overlap_ = NONE` and null
`overlap_range_`/`coords_`).  The computed `range_in_tile_domain` itself is
`rangeInTileDomainLo`/`rangeInTileDomainHi`. -/
def initRangeInTileDomain (dimNum : Nat)
    (domain tileExtents range tileDomain : Nat → Int) : List Overlap :=
  if rangeTileDomainOverlap dimNum domain tileExtents range tileDomain then []
  else [Overlap.none]

/-- C5 witness inputs: 1-D dense array, domain lower bound 0, tile extent 2,
tile domain `[0, 1]`, query range `[6, 7]` (beyond the tile domain, so the
interval comes out empty and a sentinel is pushed). -/
def c5Dom : Nat → Int := fun _ => 0

def c5Ext : Nat → Int := fun _ => 2

def c5Range : Nat → Int := fun j => if j = 0 then 6 else 7

def c5TD : Nat → Int := fun j => if j = 0 then 0 else 1

/-! ## Shared sparse-path infrastructure

The sparse tile machinery (overlap iterator, cell-range resolver, tile
loaders) shares a state slice and an environment of external collaborators. -/

/-- Pointwise update of a per-attribute map. -/
def upd {α : Type} (f : Nat → α) (i : Nat) (v : α) : Nat → α :=
  fun j => if j = i then v else f j

/-- The coordinates of the cell at position `pos` in a coordinates tile
buffer (`static_cast<const T*>(tiles_[attribute_num])`, flat scalar view):
`&tile[pos*dim_num]`, read as a list of `dim_num` scalars. -/
def coordsAt (tile : Nat → Int) (dimNum pos : Nat) : List Int :=
  (List.range dimNum).map fun d => tile (pos * dimNum + d)

/-- Modelled from the spec: `cmp_row_order` of `utils.cc` (declared, not under
`src/`).  Section 4.D: "row-major compares dimension 0 first"; returns
negative/zero/positive like the C comparator. -/
def cmpRowList : List Int → List Int → Int
  | a :: as, b :: bs => if a < b then -1 else if a > b then 1 else cmpRowList as bs
  | _, _ => 0

/-- Modelled from the spec: `cmp_col_order` of `utils.cc`.  Section 4.D:
"column-major compares dimension `D−1` first" — the row comparator on the
reversed coordinate lists. -/
def cmpColList (a b : List Int) : Int :=
  cmpRowList a.reverse b.reverse

/-- Modelled from the spec: the id-keyed `cmp_row_order` overload of
`utils.cc` used on the Hilbert paths.  Section 4.D: "Hilbert compares Hilbert
id first, then row-major for ties". -/
def cmpIdRowList (idA : Int) (a : List Int) (idB : Int) (b : List Int) : Int :=
  if idA < idB then -1 else if idA > idB then 1 else cmpRowList a b

/-- Modelled from the spec: `is_unary_range` of `utils.cc`.  Section 3:
"Unary means `lo_i == hi_i` for every dimension". -/
def isUnaryRange (dimNum : Nat) (range : Nat → Int) : Bool :=
  (List.range dimNum).all fun i => range (2 * i) = range (2 * i + 1)

/-- Modelled from the spec: `cell_in_range<T>` of `utils.cc`.  Section 3:
a range is `2·D` values, inclusive `[lo_i, hi_i]` per dimension; section 8:
the qualifying set is `{c : cell_coords(c) ∈ range}`. -/
def cellInRange (dimNum : Nat) (cell : List Int) (range : Nat → Int) : Bool :=
  (List.range dimNum).all fun i =>
    decide (range (2 * i) ≤ cell.getD i 0) && decide (cell.getD i 0 ≤ range (2 * i + 1))

/-- The three-way binary-search loop shared by the resolver and the
tile-search initialisers (e.g. read_state.cc:370-393, 3079-3100,
3255-3276).  `probe med` is the comparator value of the current probe:
negative sends the search left (`max = med-1`), positive right
(`min = med+1`), zero breaks.  State `(min, max, med)`; `med` enters with its
pre-loop value.  Returns the state at loop exit (normal exit has
`max < min`). -/
def bsearch3 (probe : Int → Int) : Nat → Int → Int → Int → Int × Int × Int
  | 0, mn, mx, med => (mn, mx, med)
  | fuel + 1, mn, mx, med =>
    if mn ≤ mx then
      let med' := mn + (mx - mn).tdiv 2
      let c := probe med'
      if c < 0 then bsearch3 probe fuel mn (med' - 1) med'
      else if c > 0 then bsearch3 probe fuel (med' + 1) mx med'
      else (mn, mx, med')
    else (mn, mx, med)

/-- One entry of `overlapping_tiles_` (`ReadState::OverlappingTile`),
restricted to the fields the sparse path touches.  `overlapRange` is the
heap-owned `overlap_range_` (flattened `2·dim_num` coordinates); sparse
entries carry no `coords_`.  Freshly malloc'ed `overlap_range_` content and
the `pos_` the source leaves unassigned before the search loop runs are
modelled as `0`. -/
structure OverTile where
  pos : Int
  overlap : Overlap
  cellNum : Nat
  cellPosRanges : List (Int × Int)
  coordsTileFetched : Bool
  overlapRange : Nat → Int

/-- A fresh `OverlappingTile` as built at read_state.cc:2566-2583 before the
search loop: `coords_ = NULL`, `overlap_ = NONE`,
`coords_tile_fetched_ = false`. -/
def freshOverTile : OverTile :=
  { pos := 0
    overlap := Overlap.none
    cellNum := 0
    cellPosRanges := []
    coordsTileFetched := false
    overlapRange := fun _ => 0 }

/-- The slice of the read state the sparse machinery mutates.  Tile buffers
are flat scalar views (`Nat → Int`): coordinate tiles hold `dim_num` scalars
per cell, variable-attribute fixed tiles hold one `size_t` offset per cell. -/
structure SState where
  overlappingTiles : List OverTile
  overlappingTilesPos : Nat → Int
  cellPosRangePos : Nat → Int
  tiles : Nat → Nat → Int
  tilesOffsets : Nat → Nat
  tilesSizes : Nat → Nat
  tilesVar : Nat → Nat → Int
  tilesVarOffsets : Nat → Nat
  tilesVarSizes : Nat → Nat

/-- The external collaborators of the sparse machinery, all read-only inputs:
the array schema, the book-keeping view and the file system / `gunzip`
primitive (the spec's sections 1 and 3 declare them external).  File reads
are keyed by `(attribute, file offset, byte count)` and yield the buffer
content they produce (or `none` for an I/O error);
`gunzip`/`gunzipVar` are keyed by the compressed request plus the output
capacity and yield the decompressed byte count and content (or `none` for a
decompression error). -/
structure SEnv where
  attributeNum : Nat
  dimNum : Nat
  cellOrder : CellOrder
  capacity : Nat
  lastTileCellNum : Nat
  tileNum : Nat
  range : Nat → Int
  hilbertId : List Int → Int
  mbrOverlap : Int → Overlap × (Nat → Int)
  cellSize : Nat → Nat
  tileSizeFull : Nat → Nat
  cellNumPerTile : Nat
  readTile : Nat → Nat → Nat → Option (Nat → Int)
  readTileVar : Nat → Nat → Nat → Option (Nat → Int)
  readCmpOk : Nat → Nat → Nat → Bool
  readCmpVarOk : Nat → Nat → Nat → Bool
  gunzip : Nat → Nat → Nat → Nat → Option (Nat × (Nat → Int))
  gunzipVar : Nat → Nat → Nat → Nat → Option (Nat × (Nat → Int))
  tileOffsets : Nat → Nat → Nat
  tileVarOffsets : Nat → Nat → Nat
  tileVarSizes : Nat → Nat → Nat
  fileSize : Nat → Nat
  varFileSize : Nat → Nat
  attributeIds : List Nat
  tileSearchRange : Int × Int

/-- The overlapping-tile entry the cursor of `attributeId` points at
(`overlapping_tiles_[overlapping_tiles_pos_[attribute_id]]`). -/
def SState.currentTile (s : SState) (attributeId : Nat) : OverTile :=
  s.overlappingTiles.getD (s.overlappingTilesPos attributeId).toNat freshOverTile

/-- Marks the current entry's `coords_tile_fetched_` flag
(read_state.cc:2700-2702, 2739-2741). -/
def SState.markCoordsFetched (s : SState) (attributeId : Nat) : SState :=
  let ot' := { s.currentTile attributeId with coordsTileFetched := true }
  { s with overlappingTiles :=
      s.overlappingTiles.set (s.overlappingTilesPos attributeId).toNat ot' }

/-! ## Tile loaders (C7, C10) -/

/-- `ReadState::get_tile_from_disk_cmp_none` (read_state.cc:2708-2745).
In the non-mmap build, `READ_TILE_FROM_FILE_CMP_NONE` is
`read_tile_from_file_cmp_none` (read_state.cc:4489-4515): it records the tile
size in `tiles_sizes_` and then reads `tile_size` bytes at `file_offset` into
the attribute's tile buffer (the buffer allocation itself has no observable
content). -/
def getTileFromDiskCmpNone (env : SEnv) (s : SState) (attributeId : Nat) :
    RC × SState :=
  let ot := s.currentTile attributeId
  if attributeId = env.attributeNum ∧ ot.coordsTileFetched then (RC.ok, s)
  else
    let cellSize := env.cellSize attributeId
    let fullTileSize := env.tileSizeFull attributeId
    let tileSize := ot.cellNum * cellSize
    let fileOffset := (ot.pos * (fullTileSize : Int)).toNat
    let s1 := { s with tilesSizes := upd s.tilesSizes attributeId tileSize }
    match env.readTile attributeId fileOffset tileSize with
    | Option.none => (RC.err, s1)
    | Option.some content =>
      let s2 := { s1 with
        tiles := upd s1.tiles attributeId content
        tilesOffsets := upd s1.tilesOffsets attributeId 0 }
      if attributeId = env.attributeNum then (RC.ok, s2.markCoordsFetched attributeId)
      else (RC.ok, s2)

/-- File offset of the compressed tile of `attributeId` at the current entry
(read_state.cc:2669-2670 and 2774-2775): `tile_offsets[attribute_id][pos]`. -/
def gzipFileOffset (env : SEnv) (s : SState) (attributeId : Nat) : Nat :=
  env.tileOffsets attributeId (s.currentTile attributeId).pos.toNat

/-- Byte count of the compressed stream of that tile
(read_state.cc:2671-2675 and 2776-2780): distance to the next tile's file
offset, or to the end of the attribute file for the last tile. -/
def gzipCompressedSize (env : SEnv) (s : SState) (attributeId : Nat) : Nat :=
  let pos := (s.currentTile attributeId).pos.toNat
  if (pos : Int) = (env.tileNum : Int) - 1 then
    usub (env.fileSize attributeId) (env.tileOffsets attributeId pos)
  else
    usub (env.tileOffsets attributeId (pos + 1)) (env.tileOffsets attributeId pos)

/-- The expected logical tile size `cell_num_ * cell_size`
(read_state.cc:2651). -/
def expectedTileSize (env : SEnv) (s : SState) (attributeId : Nat) : Nat :=
  (s.currentTile attributeId).cellNum * env.cellSize attributeId

/-- `ReadState::get_tile_from_disk_cmp_gzip` (read_state.cc:2636-2706).
`READ_TILE_FROM_FILE_CMP_GZIP` (non-mmap: read_state.cc:4461-4487) reads the
compressed bytes into the dedicated scratch buffer, whose content the
environment folds into the `gunzip` outcome; `gunzip` receives output
capacity `full_tile_size` (line 2690) and its decompressed byte count is
checked by `assert(gunzip_out_size == tile_size)` (line 2695), modelled as
`RC.assertFail` on mismatch. -/
def getTileFromDiskCmpGzip (env : SEnv) (s : SState) (attributeId : Nat) :
    RC × SState :=
  let ot := s.currentTile attributeId
  if attributeId = env.attributeNum ∧ ot.coordsTileFetched then (RC.ok, s)
  else
    let fullTileSize := env.tileSizeFull attributeId
    let tileSize := expectedTileSize env s attributeId
    let s1 := { s with tilesSizes := upd s.tilesSizes attributeId tileSize }
    let fileOffset := gzipFileOffset env s attributeId
    let tileCompressedSize := gzipCompressedSize env s attributeId
    if env.readCmpOk attributeId fileOffset tileCompressedSize = false then
      (RC.err, s1)
    else
      match env.gunzip attributeId fileOffset tileCompressedSize fullTileSize with
      | Option.none => (RC.err, s1)
      | Option.some (outSize, content) =>
        let s2 := { s1 with tiles := upd s1.tiles attributeId content }
        if outSize = tileSize then
          let s3 := { s2 with tilesOffsets := upd s2.tilesOffsets attributeId 0 }
          if attributeId = env.attributeNum then
            (RC.ok, s3.markCoordsFetched attributeId)
          else (RC.ok, s3)
        else (RC.assertFail, s2)

/-- The expected fixed-tile size of a variable attribute:
`cell_num_ * TILEDB_CELL_VAR_OFFSET_SIZE` (read_state.cc:2759). -/
def expectedTileSizeVarAttr (s : SState) (attributeId : Nat) : Nat :=
  (s.currentTile attributeId).cellNum * TILEDB_CELL_VAR_OFFSET_SIZE

/-- File offset of the compressed variable segment
(read_state.cc:2820): `tile_var_offsets[attribute_id][pos]`. -/
def gzipVarFileOffset (env : SEnv) (s : SState) (attributeId : Nat) : Nat :=
  env.tileVarOffsets attributeId (s.currentTile attributeId).pos.toNat

/-- Byte count of the compressed variable segment (read_state.cc:2821-2825). -/
def gzipVarCompressedSize (env : SEnv) (s : SState) (attributeId : Nat) : Nat :=
  let pos := (s.currentTile attributeId).pos.toNat
  if (pos : Int) = (env.tileNum : Int) - 1 then
    usub (env.varFileSize attributeId) (env.tileVarOffsets attributeId pos)
  else
    usub (env.tileVarOffsets attributeId (pos + 1))
      (env.tileVarOffsets attributeId pos)

/-- The expected decompressed variable-segment size
`book_keeping_->tile_var_sizes()[attribute_id][pos]` (read_state.cc:2828). -/
def expectedTileVarSize (env : SEnv) (s : SState) (attributeId : Nat) : Nat :=
  env.tileVarSizes attributeId (s.currentTile attributeId).pos.toNat

/-- `ReadState::shift_var_offsets(int)` (read_state.cc:4874-4883): rebases the
first `cell_num` offsets of a freshly loaded variable-attribute fixed tile by
its first offset (C `size_t` subtraction). -/
def shiftVarOffsetsBuf (content : Nat → Int) (cellNum : Nat) : Nat → Int :=
  fun c =>
    if c < cellNum then ((usub (content c).toNat (content 0).toNat : Nat) : Int)
    else content c

/-- `ReadState::get_tile_from_disk_var_cmp_gzip` (read_state.cc:2747-2872):
two stages (fixed offsets tile, then variable segment), each read + gunzip +
`assert` on the decompressed byte count (lines 2807 and 2859).  Stage 1 hands
`gunzip` output capacity `tile_size` (line 2802).  The caller dispatches this
loader only for variable attributes (the `assert(var_size)` at line 2752 is a
static schema fact). -/
def getTileFromDiskVarCmpGzip (env : SEnv) (s : SState) (attributeId : Nat) :
    RC × SState :=
  let tileSize := expectedTileSizeVarAttr s attributeId
  let fileOffset := gzipFileOffset env s attributeId
  let tileCompressedSize := gzipCompressedSize env s attributeId
  let s1 := { s with tilesSizes := upd s.tilesSizes attributeId tileSize }
  if env.readCmpOk attributeId fileOffset tileCompressedSize = false then
    (RC.err, s1)
  else
    match env.gunzip attributeId fileOffset tileCompressedSize tileSize with
    | Option.none => (RC.err, s1)
    | Option.some (outSize, content) =>
      let s2 := { s1 with tiles := upd s1.tiles attributeId content }
      if outSize = tileSize then
        let s3 := { s2 with tilesOffsets := upd s2.tilesOffsets attributeId 0 }
        let fileOffsetVar := gzipVarFileOffset env s attributeId
        let tileCompressedSizeVar := gzipVarCompressedSize env s attributeId
        let tileVarSize := expectedTileVarSize env s attributeId
        if env.readCmpVarOk attributeId fileOffsetVar tileCompressedSizeVar
            = false then
          (RC.err, s3)
        else
          match env.gunzipVar attributeId fileOffsetVar tileCompressedSizeVar
              tileVarSize with
          | Option.none => (RC.err, s3)
          | Option.some (outSizeVar, contentVar) =>
            let s4 := { s3 with tilesVar := upd s3.tilesVar attributeId contentVar }
            if outSizeVar = tileVarSize then
              (RC.ok, { s4 with
                tilesVarSizes := upd s4.tilesVarSizes attributeId tileVarSize
                tilesVarOffsets := upd s4.tilesVarOffsets attributeId 0
                tiles := upd s4.tiles attributeId
                  (shiftVarOffsetsBuf (s4.tiles attributeId)
                    (tileSize / TILEDB_CELL_VAR_OFFSET_SIZE)) })
            else (RC.assertFail, s4)
      else (RC.assertFail, s2)

/-! ## Cell-range resolver (C3)

Invoked on sparse partial overlaps.  All resolver routines read the
coordinates tile buffer (`tiles_[attribute_num]`, flat scalar view `tile`)
of the freshly pushed entry. -/

/-- `ReadState::compute_cell_pos_ranges_contig_row<T>`
(read_state.cc:444-540): binary searches for the cell positions of the
overlap-range corners under row-major order, then the contiguous interval
`[start_cell_pos, end_cell_pos]` if non-empty. -/
def computeCellPosRangesContigRow (dimNum cellNum : Nat)
    (overlapRange : Nat → Int) (tile : Nat → Int) : List (Int × Int) :=
  let rangeMinCoords := (List.range dimNum).map fun i => overlapRange (2 * i)
  let rangeMaxCoords := (List.range dimNum).map fun i => overlapRange (2 * i + 1)
  let r1 := bsearch3
    (fun med => cmpRowList rangeMinCoords (coordsAt tile dimNum med.toNat))
    (cellNum + 2) 0 ((cellNum : Int) - 1) 0
  let startCellPos := if r1.2.1 < r1.1 then r1.1 else r1.2.2
  let r2 := bsearch3
    (fun med => cmpRowList rangeMaxCoords (coordsAt tile dimNum med.toNat))
    (cellNum + 2) 0 ((cellNum : Int) - 1) 0
  let endCellPos := if r2.2.1 < r2.1 then r2.2.1 else r2.2.2
  if startCellPos ≤ endCellPos then [(startCellPos, endCellPos)] else []

/-- `ReadState::compute_cell_pos_ranges_contig_col<T>`
(read_state.cc:346-442): as the row version, under column-major order. -/
def computeCellPosRangesContigCol (dimNum cellNum : Nat)
    (overlapRange : Nat → Int) (tile : Nat → Int) : List (Int × Int) :=
  let rangeMinCoords := (List.range dimNum).map fun i => overlapRange (2 * i)
  let rangeMaxCoords := (List.range dimNum).map fun i => overlapRange (2 * i + 1)
  let r1 := bsearch3
    (fun med => cmpColList rangeMinCoords (coordsAt tile dimNum med.toNat))
    (cellNum + 2) 0 ((cellNum : Int) - 1) 0
  let startCellPos := if r1.2.1 < r1.1 then r1.1 else r1.2.2
  let r2 := bsearch3
    (fun med => cmpColList rangeMaxCoords (coordsAt tile dimNum med.toNat))
    (cellNum + 2) 0 ((cellNum : Int) - 1) 0
  let endCellPos := if r2.2.1 < r2.1 then r2.2.1 else r2.2.2
  if startCellPos ≤ endCellPos then [(startCellPos, endCellPos)] else []

/-- `ReadState::compute_cell_pos_ranges_contig<T>` (read_state.cc:333-344):
dispatch on the cell order; no branch handles Hilbert. -/
def computeCellPosRangesContig (cellOrder : CellOrder) (dimNum cellNum : Nat)
    (overlapRange : Nat → Int) (tile : Nat → Int) : List (Int × Int) :=
  match cellOrder with
  | CellOrder.rowMajor =>
    computeCellPosRangesContigRow dimNum cellNum overlapRange tile
  | CellOrder.colMajor =>
    computeCellPosRangesContigCol dimNum cellNum overlapRange tile
  | CellOrder.hilbert => []

/-- `ReadState::compute_cell_pos_ranges_unary_row<T>`
(read_state.cc:734-784): exact-match binary search; emits `[med, med]` iff
the search broke on a match. -/
def computeCellPosRangesUnaryRow (dimNum cellNum : Nat)
    (overlapRange : Nat → Int) (tile : Nat → Int) : List (Int × Int) :=
  let rangeCoords := (List.range dimNum).map fun i => overlapRange (2 * i)
  let r := bsearch3
    (fun med => cmpRowList rangeCoords (coordsAt tile dimNum med.toNat))
    (cellNum + 2) 0 ((cellNum : Int) - 1) 0
  if r.2.1 ≥ r.1 then [(r.2.2, r.2.2)] else []

/-- `ReadState::compute_cell_pos_ranges_unary_col<T>`
(read_state.cc:622-672). -/
def computeCellPosRangesUnaryCol (dimNum cellNum : Nat)
    (overlapRange : Nat → Int) (tile : Nat → Int) : List (Int × Int) :=
  let rangeCoords := (List.range dimNum).map fun i => overlapRange (2 * i)
  let r := bsearch3
    (fun med => cmpColList rangeCoords (coordsAt tile dimNum med.toNat))
    (cellNum + 2) 0 ((cellNum : Int) - 1) 0
  if r.2.1 ≥ r.1 then [(r.2.2, r.2.2)] else []

/-- `ReadState::compute_cell_pos_ranges_unary_hil<T>`
(read_state.cc:674-732): as the row version, under Hilbert-id order with
row-major tie-break. -/
def computeCellPosRangesUnaryHil (dimNum cellNum : Nat)
    (hilbertId : List Int → Int) (overlapRange : Nat → Int)
    (tile : Nat → Int) : List (Int × Int) :=
  let rangeCoords := (List.range dimNum).map fun i => overlapRange (2 * i)
  let rangeCoordsId := hilbertId rangeCoords
  let r := bsearch3
    (fun med =>
      let cell := coordsAt tile dimNum med.toNat
      cmpIdRowList rangeCoordsId rangeCoords (hilbertId cell) cell)
    (cellNum + 2) 0 ((cellNum : Int) - 1) 0
  if r.2.1 ≥ r.1 then [(r.2.2, r.2.2)] else []

/-- `ReadState::compute_cell_pos_ranges_unary<T>` (read_state.cc:607-620). -/
def computeCellPosRangesUnary (cellOrder : CellOrder) (dimNum cellNum : Nat)
    (hilbertId : List Int → Int) (overlapRange : Nat → Int)
    (tile : Nat → Int) : List (Int × Int) :=
  match cellOrder with
  | CellOrder.rowMajor =>
    computeCellPosRangesUnaryRow dimNum cellNum overlapRange tile
  | CellOrder.colMajor =>
    computeCellPosRangesUnaryCol dimNum cellNum overlapRange tile
  | CellOrder.hilbert =>
    computeCellPosRangesUnaryHil dimNum cellNum hilbertId overlapRange tile

/-- The scan loop of `ReadState::compute_cell_pos_ranges_scan<T>`
(read_state.cc:583-599).  State: cell position `i`, the active run
`(current_start_pos, current_end_pos)` with `current_end_pos = -2` meaning no
active run (`current_start_pos` enters with `0` for the value the source
leaves unassigned until the first in-range cell), and the ranges pushed so
far.  Note the scan tests each cell against the *query* range
(`fragment_->array()->range()`, line 576). -/
def computeCellPosRangesScanLoop (dimNum : Nat) (range : Nat → Int)
    (tile : Nat → Int) (endPos : Int) :
    Nat → Int → Int → Int → List (Int × Int) → List (Int × Int) × Int × Int
  | 0, _, cs, ce, acc => (acc, cs, ce)
  | fuel + 1, i, cs, ce, acc =>
    if i ≤ endPos then
      if cellInRange dimNum (coordsAt tile dimNum i.toNat) range then
        if i - 1 = ce then
          computeCellPosRangesScanLoop dimNum range tile endPos
            fuel (i + 1) cs (ce + 1) acc
        else
          computeCellPosRangesScanLoop dimNum range tile endPos
            fuel (i + 1) i i acc
      else
        if i - 1 = ce then
          computeCellPosRangesScanLoop dimNum range tile endPos
            fuel (i + 1) cs (-2) (acc ++ [(cs, ce)])
        else
          computeCellPosRangesScanLoop dimNum range tile endPos
            fuel (i + 1) cs ce acc
    else (acc, cs, ce)

/-- `ReadState::compute_cell_pos_ranges_scan<T>` (read_state.cc:568-605):
scans cell positions `start_pos … end_pos`, coalescing maximal runs of
in-range cells, and appends the last open run after the loop. -/
def computeCellPosRangesScan (dimNum : Nat) (range tile : Nat → Int)
    (startPos endPos : Int) : List (Int × Int) :=
  let r := computeCellPosRangesScanLoop dimNum range tile endPos
             ((endPos - startPos).toNat + 1) startPos 0 (-2) []
  if r.2.2 ≠ -2 then r.1 ++ [(r.2.1, r.2.2)] else r.1

/-- `ReadState::compute_cell_pos_ranges_non_contig<T>`
(read_state.cc:542-566).  For row/column order: resolve the bounding
contiguous interval, then scan inside it.  For Hilbert order the source scans
`0 … cell_num-1` with `cell_num = array_schema->capacity()` (line 563) — the
tile capacity, *not* the entry's `cell_num_`. -/
def computeCellPosRangesNonContig (cellOrder : CellOrder)
    (dimNum capacity cellNum : Nat)
    (overlapRange queryRange tile : Nat → Int) : List (Int × Int) :=
  match cellOrder with
  | CellOrder.rowMajor | CellOrder.colMajor =>
    match computeCellPosRangesContig cellOrder dimNum cellNum overlapRange tile with
    | [] => []
    | (startPos, endPos) :: _ =>
      computeCellPosRangesScan dimNum queryRange tile startPos endPos
  | CellOrder.hilbert =>
    computeCellPosRangesScan dimNum queryRange tile 0 ((capacity : Int) - 1)

/-- The dispatch of `ReadState::compute_cell_pos_ranges<T>`
(read_state.cc:324-330) for the freshly pushed entry `back`, after the
coordinates tile is in memory. -/
def computeCellPosRangesFor (env : SEnv) (back : OverTile)
    (coordsTile : Nat → Int) : List (Int × Int) :=
  if isUnaryRange env.dimNum env.range then
    computeCellPosRangesUnary env.cellOrder env.dimNum back.cellNum
      env.hilbertId back.overlapRange coordsTile
  else if back.overlap = Overlap.partialContig then
    computeCellPosRangesContig env.cellOrder env.dimNum back.cellNum
      back.overlapRange coordsTile
  else if back.overlap = Overlap.partialNonContig then
    computeCellPosRangesNonContig env.cellOrder env.dimNum env.capacity
      back.cellNum back.overlapRange env.range coordsTile
  else []

/-- `ReadState::compute_cell_pos_ranges<T>` (read_state.cc:313-331): bring
the coordinates tile into memory (the return code of the load is ignored by
the source, line 322), then attach the resolved ranges to the last entry. -/
def computeCellPosRanges (env : SEnv) (s : SState) : SState :=
  let s1 := (getTileFromDiskCmpNone env s env.attributeNum).2
  match s1.overlappingTiles.getLast? with
  | Option.none => s1
  | Option.some back =>
    let ranges := computeCellPosRangesFor env back (s1.tiles env.attributeNum)
    let back' := { back with cellPosRanges := back.cellPosRanges ++ ranges }
    { s1 with overlappingTiles :=
        s1.overlappingTiles.set (s1.overlappingTiles.length - 1) back' }

/-! ## Sparse overlap iterator (C10) -/

/-- The tile-scan loop of read_state.cc:2588-2615: starting at `tilePos`,
probe `compute_mbr_range_overlap` (schema, external — its `0…3` overlap code
maps to `Overlap` exactly as lines 2603-2611) until a non-`NONE` overlap or
the end of the search range. -/
def sparseTileSearchLoop (env : SEnv) : Nat → Int → OverTile → OverTile
  | 0, _, entry => entry
  | fuel + 1, tilePos, entry =>
    if entry.overlap = Overlap.none ∧ tilePos ≤ env.tileSearchRange.2 then
      let o := env.mbrOverlap tilePos
      sparseTileSearchLoop env fuel (tilePos + 1)
        { entry with pos := tilePos, overlap := o.1, overlapRange := o.2 }
    else entry

/-- Read_state.cc:2566-2622: the next overlapping-tile entry exactly as it is
pushed at line 2625 — fresh flags, then the search loop (guarded by a valid
search-range start), then the cell count (`capacity` for interior tiles,
`last_tile_cell_num` for the terminal tile). -/
def mkSparseOverlappingTile (env : SEnv) (s : SState) : OverTile :=
  let tilePos : Int :=
    if s.overlappingTiles.length = 0 then env.tileSearchRange.1
    else (s.overlappingTiles.getLastD freshOverTile).pos + 1
  let entry0 := freshOverTile
  let entry1 :=
    if 0 ≤ env.tileSearchRange.1 ∧ env.tileSearchRange.1 < (env.tileNum : Int) then
      sparseTileSearchLoop env ((env.tileSearchRange.2 - tilePos).toNat + 2)
        tilePos entry0
    else entry0
  { entry1 with cellNum :=
      if entry1.pos ≠ (env.tileNum : Int) - 1 then env.capacity
      else env.lastTileCellNum }

/-- `ReadState::get_next_overlapping_tile_sparse<T>`
(read_state.cc:2558-2634): push the new entry, resolve its cell-position
ranges on partial overlap, then run the reaper. -/
def getNextOverlappingTileSparse (env : SEnv) (s : SState) : SState :=
  let entry := mkSparseOverlappingTile env s
  let s1 := { s with overlappingTiles := s.overlappingTiles ++ [entry] }
  let s2 :=
    if entry.overlap = Overlap.partialContig ∨
       entry.overlap = Overlap.partialNonContig then
      computeCellPosRanges env s1
    else s1
  let cl := cleanUpProcessedOverlappingTiles env.attributeNum env.attributeIds
              s2.overlappingTilesPos s2.overlappingTiles
  { s2 with overlappingTiles := cl.1, overlappingTilesPos := cl.2 }

/-- C3 failing input, query range: `[0,2] × [0,2]` (not unary). -/
def c3Range : Nat → Int := fun j => if j % 2 = 0 then 0 else 2

/-- C3 failing input, coordinates tile buffer of a 2-D Hilbert-order sparse
fragment with capacity 2 whose *last* tile holds a single cell `(1,1)`:
flat scalars `1, 1` at cell position 0, and stale scalars `2, 2` at position
1 left over from the previously loaded tile (only
`cell_num * coords_size` bytes of the buffer are valid). -/
def c3Tile : Nat → Int := fun k => if k < 2 then 1 else 2

/-- The single overlapping-tile entry of the witness state: position 0, one
cell, coordinates tile already fetched. -/
def wTile : OverTile :=
  { pos := 0
    overlap := Overlap.full
    cellNum := 1
    cellPosRanges := []
    coordsTileFetched := true
    overlapRange := fun _ => 0 }

/-- A concrete witness state for the loader theorems: one overlapping-tile
entry (position 0, one cell) whose coordinates tile is already fetched, and
all cursors at 0. -/
def wState : SState :=
  { overlappingTiles := [wTile]
    overlappingTilesPos := fun _ => 0
    cellPosRangePos := fun _ => 0
    tiles := fun _ _ => 0
    tilesOffsets := fun _ => 0
    tilesSizes := fun _ => 0
    tilesVar := fun _ _ => 0
    tilesVarOffsets := fun _ => 0
    tilesVarSizes := fun _ => 0 }

/-- A concrete witness environment: two attribute slots (ids `0` and the
coordinate slot `1`), 4-byte cells, one tile, and a file system / `gunzip`
that always succeed with exactly the requested output size. -/
def wEnv : SEnv :=
  { attributeNum := 1
    dimNum := 1
    cellOrder := CellOrder.rowMajor
    capacity := 1
    lastTileCellNum := 1
    tileNum := 1
    range := fun _ => 0
    hilbertId := fun _ => 0
    mbrOverlap := fun _ => (Overlap.none, fun _ => 0)
    cellSize := fun _ => 4
    tileSizeFull := fun _ => 4
    cellNumPerTile := 1
    readTile := fun _ _ _ => Option.some fun _ => 0
    readTileVar := fun _ _ _ => Option.some fun _ => 0
    readCmpOk := fun _ _ _ => true
    readCmpVarOk := fun _ _ _ => true
    gunzip := fun _ _ _ availOut => Option.some (availOut, fun _ => 0)
    gunzipVar := fun _ _ _ availOut => Option.some (availOut, fun _ => 0)
    tileOffsets := fun _ _ => 0
    tileVarOffsets := fun _ _ => 0
    tileVarSizes := fun _ _ => 0
    fileSize := fun _ => 0
    varFileSize := fun _ => 0
    attributeIds := [0]
    tileSearchRange := (0, 0) }

/-! ## C8 — empty attributes in the per-attribute read dispatchers

`read_dense_attr` / `read_sparse_attr_var` and their compression dispatchers.
The templated per-attribute copy loops they hand off to are universally
quantified continuations (`Nat → Bool → …` takes the in/out buffer size and
the attribute's overflow flag): the claim is decided entirely by the
dispatcher prologues, and the theorems hold for every continuation body,
including the source's. -/

/-- `ReadState::is_empty_attribute` (read_state.cc:3328-3337): the
attribute's file does not exist.  `isFile` is the file-system input
(`is_file` of `utils.cc`, external). -/
def isEmptyAttribute (isFile : Nat → Bool) (attributeId : Nat) : Bool :=
  !(isFile attributeId)

/-- `ReadState::read_dense_attr_cmp_none` (dispatcher,
read_state.cc:3495-3518): empty-attribute check (sets the returned size to
`0`), then coordinate-type dispatch into the templated loop (`contI` for
`int`, `contL` for `int64_t`; other types are a fatal error). -/
def readDenseAttrCmpNone (isFile : Nat → Bool) (coordsType : CoordsType)
    (attributeId bufferSize : Nat) (overflow : Bool)
    (contI contL : Nat → Bool → RC × Nat × Bool) : RC × Nat × Bool :=
  if isEmptyAttribute isFile attributeId then (RC.ok, 0, overflow)
  else
    match coordsType with
    | CoordsType.cInt => contI bufferSize overflow
    | CoordsType.cInt64 => contL bufferSize overflow
    | _ => (RC.err, bufferSize, overflow)

/-- `ReadState::read_dense_attr_cmp_gzip` (dispatcher,
read_state.cc:3400-3423): same prologue as the uncompressed dispatcher. -/
def readDenseAttrCmpGzip (isFile : Nat → Bool) (coordsType : CoordsType)
    (attributeId bufferSize : Nat) (overflow : Bool)
    (contI contL : Nat → Bool → RC × Nat × Bool) : RC × Nat × Bool :=
  if isEmptyAttribute isFile attributeId then (RC.ok, 0, overflow)
  else
    match coordsType with
    | CoordsType.cInt => contI bufferSize overflow
    | CoordsType.cInt64 => contL bufferSize overflow
    | _ => (RC.err, bufferSize, overflow)

/-- `ReadState::read_dense_attr` (read_state.cc:3377-3398): the trivial
zero-size case sets the attribute's overflow flag *before* any
empty-attribute check, then compression dispatch. -/
def readDenseAttr (isFile : Nat → Bool) (compression : Compression)
    (coordsType : CoordsType) (attributeId bufferSize : Nat) (overflow : Bool)
    (contNoneI contNoneL contGzipI contGzipL : Nat → Bool → RC × Nat × Bool) :
    RC × Nat × Bool :=
  if bufferSize = 0 then (RC.ok, bufferSize, true)
  else
    match compression with
    | Compression.noCmp =>
      readDenseAttrCmpNone isFile coordsType attributeId bufferSize overflow
        contNoneI contNoneL
    | Compression.gzip =>
      readDenseAttrCmpGzip isFile coordsType attributeId bufferSize overflow
        contGzipI contGzipL

/-- `ReadState::read_sparse_attr_var_cmp_none` (dispatcher,
read_state.cc:4327-4377): empty-attribute check (zeroes both returned
sizes), then coordinate-type dispatch — sparse arrays also accept `float`
and `double` coordinates, so all four enum cases reach a continuation. -/
def readSparseAttrVarCmpNone (isFile : Nat → Bool) (coordsType : CoordsType)
    (attributeId bufferSize bufferVarSize : Nat) (overflow : Bool)
    (contI contL contF contD : Nat → Nat → Bool → RC × Nat × Nat × Bool) :
    RC × Nat × Nat × Bool :=
  if isEmptyAttribute isFile attributeId then (RC.ok, 0, 0, overflow)
  else
    match coordsType with
    | CoordsType.cInt => contI bufferSize bufferVarSize overflow
    | CoordsType.cInt64 => contL bufferSize bufferVarSize overflow
    | CoordsType.cFloat => contF bufferSize bufferVarSize overflow
    | CoordsType.cDouble => contD bufferSize bufferVarSize overflow

/-- `ReadState::read_sparse_attr_var_cmp_gzip` (dispatcher,
read_state.cc:4190-4240): same prologue. -/
def readSparseAttrVarCmpGzip (isFile : Nat → Bool) (coordsType : CoordsType)
    (attributeId bufferSize bufferVarSize : Nat) (overflow : Bool)
    (contI contL contF contD : Nat → Nat → Bool → RC × Nat × Nat × Bool) :
    RC × Nat × Nat × Bool :=
  if isEmptyAttribute isFile attributeId then (RC.ok, 0, 0, overflow)
  else
    match coordsType with
    | CoordsType.cInt => contI bufferSize bufferVarSize overflow
    | CoordsType.cInt64 => contL bufferSize bufferVarSize overflow
    | CoordsType.cFloat => contF bufferSize bufferVarSize overflow
    | CoordsType.cDouble => contD bufferSize bufferVarSize overflow

/-- `ReadState::read_sparse_attr_var` (read_state.cc:4153-4188): the trivial
case (`buffer_size == 0 || buffer_var_size == 0`) sets the overflow flag and
zeroes both sizes *before* any empty-attribute check, then compression
dispatch. -/
def readSparseAttrVar (isFile : Nat → Bool) (compression : Compression)
    (coordsType : CoordsType)
    (attributeId bufferSize bufferVarSize : Nat) (overflow : Bool)
    (contNoneI contNoneL contNoneF contNoneD
     contGzipI contGzipL contGzipF contGzipD :
      Nat → Nat → Bool → RC × Nat × Nat × Bool) : RC × Nat × Nat × Bool :=
  if bufferSize = 0 ∨ bufferVarSize = 0 then (RC.ok, 0, 0, true)
  else
    match compression with
    | Compression.noCmp =>
      readSparseAttrVarCmpNone isFile coordsType attributeId bufferSize
        bufferVarSize overflow contNoneI contNoneL contNoneF contNoneD
    | Compression.gzip =>
      readSparseAttrVarCmpGzip isFile coordsType attributeId bufferSize
        bufferVarSize overflow contGzipI contGzipL contGzipF contGzipD

/-- A concrete junk continuation for closed counterexamples; the evaluated
paths never reach it. -/
def haltCont : Nat → Bool → RC × Nat × Bool := fun size ov => (RC.err, size, ov)

/-- A concrete junk variable-attribute continuation for closed
counterexamples; the evaluated paths never reach it. -/
def haltContVar : Nat → Nat → Bool → RC × Nat × Nat × Bool :=
  fun size sizeVar ov => (RC.err, size, sizeVar, ov)

/-! ## C6 — `ReadState::init_tile_search_range_row` / `_col`
(read_state.cc:3227-3326, 3051-3150)

Each initialiser runs the shared three-way binary-search loop (`bsearch3`)
over the book-keeping bounding-coordinates list, probing with the range-min
key first and, unless the range is unary, with the range-max key second.
`bounding_coords()` comes from book-keeping (external input, spec §1):
`bounding_coords[t]` is a flat buffer of `2·dim_num` scalars, modelled as
`bc : Nat → Nat → Int` (tile index → scalar index). -/

/-- `tile_start_coords = static_cast<const T*>(bounding_coords[med])`
(read_state.cc:3259): the first `dim_num` scalars of tile `t`'s bounding
buffer. -/
def tileFirstCoords (dimNum : Nat) (bc : Nat → Nat → Int) (t : Nat) : List Int :=
  (List.range dimNum).map fun d => bc t d

/-- `tile_end_coords = &(...bounding_coords[med])[dim_num]`
(read_state.cc:3260): the second `dim_num` scalars of tile `t`'s bounding
buffer. -/
def tileLastCoords (dimNum : Nat) (bc : Nat → Nat → Int) (t : Nat) : List Int :=
  (List.range dimNum).map fun d => bc t (dimNum + d)

/-- `range_min_coords[i] = range[2*i]` (read_state.cc:3240-3242). -/
def rangeMinCoordsOf (dimNum : Nat) (range : Nat → Int) : List Int :=
  (List.range dimNum).map fun i => range (2 * i)

/-- `range_max_coords[i] = range[2*i+1]` (read_state.cc:3240-3242). -/
def rangeMaxCoordsOf (dimNum : Nat) (range : Nat → Int) : List Int :=
  (List.range dimNum).map fun i => range (2 * i + 1)

/-- The probe of the tile-search loops (read_state.cc:3262-3275): compare
the key against the tile's first bounding coordinate (`< 0` sends the
search left), then against its last bounding coordinate (`> 0` sends it
right); otherwise the key falls inside the tile's bounding interval and the
loop breaks. -/
def mbrProbe (cmp : List Int → List Int → Int) (F L : Nat → List Int)
    (key : List Int) : Int → Int :=
  fun med =>
    if cmp key (F med.toNat) < 0 then -1
    else if 0 < cmp key (L med.toNat) then 1 else 0

/-- Exit selection of the first (range-min) search (read_state.cc:3279-3282):
`min` on normal exit (`max < min`), the breaking `med` otherwise. -/
def tileSearchFirst (probe : Int → Int) (T : Nat) : Int :=
  let r := bsearch3 probe (T + 2) 0 ((T : Int) - 1) 0
  if r.2.1 < r.1 then r.1 else r.2.2

/-- Exit selection of the second (range-max) search (read_state.cc:3317-3320):
`max` on normal exit, the breaking `med` otherwise. -/
def tileSearchLast (probe : Int → Int) (T : Nat) : Int :=
  let r := bsearch3 probe (T + 2) 0 ((T : Int) - 1) 0
  if r.2.1 < r.1 then r.2.1 else r.2.2

/-- `ReadState::init_tile_search_range_row<T>` (read_state.cc:3227-3326):
search for the start position with the range-min key; if the range is unary
the end position equals the start (read_state.cc:3284-3286), else search
for the end position with the range-max key.  Returns
`(tile_search_range_[0], tile_search_range_[1])`. -/
def initTileSearchRangeRow (dimNum T : Nat) (bc : Nat → Nat → Int)
    (range : Nat → Int) : Int × Int :=
  let first := tileSearchFirst
    (mbrProbe cmpRowList (tileFirstCoords dimNum bc) (tileLastCoords dimNum bc)
      (rangeMinCoordsOf dimNum range)) T
  if isUnaryRange dimNum range then (first, first)
  else (first, tileSearchLast
    (mbrProbe cmpRowList (tileFirstCoords dimNum bc) (tileLastCoords dimNum bc)
      (rangeMaxCoordsOf dimNum range)) T)

/-- `ReadState::init_tile_search_range_col<T>` (read_state.cc:3051-3150):
identical to the row version with `cmp_col_order` as the comparator. -/
def initTileSearchRangeCol (dimNum T : Nat) (bc : Nat → Nat → Int)
    (range : Nat → Int) : Int × Int :=
  let first := tileSearchFirst
    (mbrProbe cmpColList (tileFirstCoords dimNum bc) (tileLastCoords dimNum bc)
      (rangeMinCoordsOf dimNum range)) T
  if isUnaryRange dimNum range then (first, first)
  else (first, tileSearchLast
    (mbrProbe cmpColList (tileFirstCoords dimNum bc) (tileLastCoords dimNum bc)
      (rangeMaxCoordsOf dimNum range)) T)

/-- Witness bounding coordinates: one dimension, two tiles, tile 0 spanning
coordinates `[0, 1]` and tile 1 spanning `[3, 4]`. -/
def c6BC : Nat → Nat → Int :=
  fun t j => if t = 0 then (if j = 0 then 0 else 1) else (if j = 0 then 3 else 4)

/-- Witness query range `[1, 3]` (non-unary) on the one dimension. -/
def c6QR : Nat → Int := fun j => if j = 0 then 1 else 3

/-! ## C9 — `ReadState::read` (read_state.cc:187-209)

`read()` touches the overflow flags directly and hands everything else to
the dense/sparse read paths, which are universally quantified here: the
theorem below holds for every dispatch body, including the source's. -/

/-- Array mode as `read()` distinguishes it: `TILEDB_READ`,
`TILEDB_READ_REVERSE` (reserved, returns success doing nothing), anything
else (fatal invalid-mode error). -/
inductive ArrayMode where
  | read
  | readReverse
  | other
deriving DecidableEq, Repr

/-- The read-state slice `read()` manipulates itself: the per-attribute
overflow flags plus the rest of the state, abstracted as `ρ`. -/
structure RState (ρ : Type) where
  overflow : Nat → Bool
  rest : ρ

/-- `ReadState::reset_overflow` (read_state.cc:4869-4872): every
per-attribute flag is assigned `false`. -/
def resetOverflow {ρ : Type} (s : RState ρ) : RState ρ :=
  { s with overflow := fun _ => false }

/-- `ReadState::read` (read_state.cc:187-209): reset the overflow flags,
then dispatch on mode and density.  `readDense`/`readSparse` are the full
dense/sparse read paths (read_state.cc:3339-3375, 3868-3904 and everything
they call), universally quantified. -/
def readCall {ρ : Type} (mode : ArrayMode) (dense : Bool)
    (readDense readSparse : RState ρ → RC × RState ρ) (s : RState ρ) :
    RC × RState ρ :=
  let s1 := resetOverflow s
  match mode with
  | ArrayMode.read => if dense then readDense s1 else readSparse s1
  | ArrayMode.readReverse => (RC.ok, s1)
  | ArrayMode.other => (RC.err, s1)

/-! # Theorems -/

theorem usub_eq_sub {a b : Nat} (hba : b ≤ a) (ha : a < U64) :
    usub a b = a - b := by
  unfold usub U64 at *
  omega

/-- C1: for the variable tile with rebased offsets `0, 5, 10` (`c1Tile`,
three cells, `tiles_var_sizes_ = 10`), requested copy range `[0, 1]`,
`buffer_free_space = 100` and `buffer_var_free_space = 5`,
`compute_bytes_to_copy` returns `bytes_to_copy = 16` and
`bytes_var_to_copy = 10 > 5 = buffer_var_free_space`: when the binary search
probes a cell whose prefix `off[med] - off[start]` equals the free space
exactly, it breaks and keeps `end_cell_pos = med`, although cell `med` itself
does not fit.  The claim instead requires the largest `m` with
`off[m+1] - off[start] ≤ free_var`, which here is `m = 0` (the last two
conjuncts: `off[1] - off[0] = 5 ≤ 5` and `off[2] - off[0] = 10 > 5`), i.e.
`bytes_to_copy = 8`, `bytes_var_to_copy = 5`, and in particular
`bytes_var ≤ free_var` — which the code violates. -/
theorem computeBytesToCopy_equal_fit_break_overshoots :
    computeBytesToCopy 3 c1Tile 10 0 1 100 5 = (16, 10) ∧
    (computeBytesToCopy 3 c1Tile 10 0 1 100 5).2 > 5 ∧
    usub (c1Tile (0 + 1)) (c1Tile 0) ≤ 5 ∧
    ¬ usub (c1Tile (1 + 1)) (c1Tile 0) ≤ 5 :=
  ⟨by decide, by decide, by decide, by decide⟩

/-- C2: the slab-walk copy for a dense fixed attribute with box overlap, on a
4-byte-cell tile with tile slabs of 16 bytes, two range slabs of 8 bytes
(overlap bytes `[0, 23]`), called with `buffer_size = 8` and
`buffer_offset = 4` (4 bytes free after a previous tile's copy): because line
1504 bounds the first `memcpy` by `buffer_size` instead of
`buffer_free_space`, the call issues `memcpy`s `(4, 8)` and `(12, 8)` —
16 bytes written starting inside an 8-byte buffer, both running past its end —
and returns with `buffer_offset = 20 > buffer_size`, overflow **not** set and
the tile marked done.  The claim's bound `buffer_size - buffer_offset = 4`
bytes is violated (conjunct 2), and the first write already runs past the
buffer end (conjunct 3). -/
theorem copyPartialNonContigDense_writes_past_buffer_end :
    copyFromTileBufferPartialNonContigDense 0 23 8 16 32 10 8 4 0 =
      ⟨[(4, 8), (12, 8)], 20, 32, false, true⟩ ∧
    8 + 8 > usub 8 4 ∧
    4 + 8 > 8 :=
  ⟨by decide, by decide, by decide⟩

/-- C4: for a query requesting only attribute `1` (of attributes `0`, `1` and
coordinate slot `2`) with `overlapping_tiles_pos_ = c4Pos` (attribute 1 has
passed 2 entries) and three live overlapping-tile entries, the reaper frees
nothing: `min_pos` is initialised from `overlapping_tiles_pos_[0]` — the
cursor of the *unrequested* attribute `0`, which is permanently `0` — instead
of the minimum over the requested attributes (which is `2`, conjunct 3).  The
list therefore remains at 3 entries, exceeding the claimed bound
`1 + (max − min over requested) = 1 + 0` (conjunct 4). -/
theorem cleanUpProcessedOverlappingTiles_skips_reaping :
    (cleanUpProcessedOverlappingTiles 2 [1] c4Pos [0, 1, 2]).1 = [0, 1, 2] ∧
    cleanUpMinPos [1] c4Pos = 0 ∧
    c4Pos 1 = 2 ∧
    ([0, 1, 2] : List Nat).length > 1 + 0 :=
  ⟨by decide, by decide, by decide, by decide⟩

/-- C5: for every dense query with positive tile extents, a well-formed query
range (`lo ≤ hi` per dimension, at or above the domain lower bound) and a
well-formed tile domain, `init_range_in_tile_domain` computes per dimension
`range_in_tile_domain[i] = [max(⌊(range_lo − domain_lo)/extent⌋, tile_lo),
min(⌊(range_hi − domain_lo)/extent⌋, tile_hi)]` (floor division, first
conjunct), and it pushes exactly one sentinel overlapping-tile entry of
overlap kind `None` iff some dimension's interval is empty (second conjunct;
otherwise it pushes nothing). -/
theorem initRangeInTileDomain_floor_and_sentinel
    (dimNum : Nat) (domain tileExtents range tileDomain : Nat → Int)
    (hext : ∀ i < dimNum, 0 < tileExtents i)
    (hrange : ∀ i < dimNum,
      domain (2 * i) ≤ range (2 * i) ∧ range (2 * i) ≤ range (2 * i + 1))
    (htd : ∀ i < dimNum, tileDomain (2 * i) ≤ tileDomain (2 * i + 1)) :
    (∀ i < dimNum,
        rangeInTileDomainLo domain tileExtents range tileDomain i =
          max ((range (2 * i) - domain (2 * i)).fdiv (tileExtents i))
            (tileDomain (2 * i)) ∧
        rangeInTileDomainHi domain tileExtents range tileDomain i =
          min ((range (2 * i + 1) - domain (2 * i)).fdiv (tileExtents i))
            (tileDomain (2 * i + 1))) ∧
    ((initRangeInTileDomain dimNum domain tileExtents range tileDomain =
        [Overlap.none]) ↔
      ∃ i < dimNum,
        rangeInTileDomainHi domain tileExtents range tileDomain i <
          rangeInTileDomainLo domain tileExtents range tileDomain i) := by
  have hx : ∀ i < dimNum, 0 ≤ range (2 * i) - domain (2 * i) := by
    intro i hi; have := (hrange i hi).1; omega
  have hy : ∀ i < dimNum, 0 ≤ range (2 * i + 1) - domain (2 * i) := by
    intro i hi; have h1 := (hrange i hi).1; have h2 := (hrange i hi).2; omega
  have hxy : ∀ i < dimNum,
      (range (2 * i) - domain (2 * i)).tdiv (tileExtents i) ≤
      (range (2 * i + 1) - domain (2 * i)).tdiv (tileExtents i) := by
    intro i hi
    rw [Int.tdiv_eq_ediv (hx i hi) (le_of_lt (hext i hi)),
        Int.tdiv_eq_ediv (hy i hi) (le_of_lt (hext i hi))]
    exact Int.ediv_le_ediv (hext i hi) (by have := (hrange i hi).2; omega)
  refine ⟨?_, ?_⟩
  · intro i hi
    constructor
    · unfold rangeInTileDomainLo
      rw [Int.fdiv_eq_tdiv (hx i hi) (le_of_lt (hext i hi))]
    · unfold rangeInTileDomainHi
      rw [Int.fdiv_eq_tdiv (hy i hi) (le_of_lt (hext i hi))]
  · unfold initRangeInTileDomain
    have hiff : rangeTileDomainOverlap dimNum domain tileExtents range
        tileDomain = false ↔
        ∃ i < dimNum,
          rangeInTileDomainHi domain tileExtents range tileDomain i <
            rangeInTileDomainLo domain tileExtents range tileDomain i := by
      unfold rangeTileDomainOverlap
      rw [List.all_eq_false]
      constructor
      · rintro ⟨i, hmem, hfi⟩
        rw [List.mem_range] at hmem
        refine ⟨i, hmem, ?_⟩
        by_cases hc : rangeInTileDomainLo domain tileExtents range tileDomain i >
            tileDomain (2 * i + 1) ∨
            rangeInTileDomainHi domain tileExtents range tileDomain i <
              tileDomain (2 * i)
        · unfold rangeInTileDomainLo rangeInTileDomainHi at hc ⊢
          have := hxy i hmem
          have := htd i hmem
          omega
        · simp [hc] at hfi
      · rintro ⟨i, hi, hlt⟩
        refine ⟨i, List.mem_range.mpr hi, ?_⟩
        have hc : rangeInTileDomainLo domain tileExtents range tileDomain i >
            tileDomain (2 * i + 1) ∨
            rangeInTileDomainHi domain tileExtents range tileDomain i <
              tileDomain (2 * i) := by
          unfold rangeInTileDomainLo rangeInTileDomainHi at hlt ⊢
          have := hxy i hi
          have := htd i hi
          omega
        simp [hc]
    constructor
    · intro h
      rw [← hiff]
      by_cases hb : rangeTileDomainOverlap dimNum domain tileExtents range tileDomain
      · simp [hb] at h
      · simpa using hb
    · intro h
      rw [← hiff] at h
      simp [h]

/-- C3: on a sparse 2-D Hilbert-order fragment with capacity 2 whose last
tile is partial (`cell_num_ = 1`, single cell `(1,1)`), with query range
`[0,2] × [0,2]` and `PARTIAL_NON_CONTIG` overlap, the resolver emits the
interval `[0, 1]`: the Hilbert branch scans `0 … capacity-1` (read_state.cc:
563 uses `array_schema->capacity()`, not the entry's `cell_num_`), so the
stale buffer position 1 — past the valid `cell_num` cells — is classified and
emitted whenever the previous tile's leftover coordinates happen to lie in
the range.  The claim's union is `{c ∈ [0, cell_num) : coords(c) ∈ range}` =
`{0}` (the scan bounded by `cell_num` yields `[0, 0]`, second conjunct), but
the emitted interval contains position `1 ∉ [0, 1)` (third conjunct). -/
theorem computeCellPosRangesNonContig_hilbert_emits_stale_positions :
    computeCellPosRangesNonContig CellOrder.hilbert 2 2 1 c3Range c3Range
      c3Tile = [(0, 1)] ∧
    computeCellPosRangesScan 2 c3Range c3Tile 0 ((1 : Int) - 1) = [(0, 0)] ∧
    ¬((1 : Int) < (1 : Int)) :=
  ⟨by decide, by decide, by decide⟩

/-- C5 witness: the theorem applied to the concrete 1-D input `c5Dom`/`c5Ext`/
`c5Range`/`c5TD`, discharging all three hypotheses there. -/
theorem initRangeInTileDomain_floor_and_sentinel_witness :
    (∀ i < 1, 0 < c5Ext i) ∧
    ((∀ i < 1,
        rangeInTileDomainLo c5Dom c5Ext c5Range c5TD i =
          max ((c5Range (2 * i) - c5Dom (2 * i)).fdiv (c5Ext i)) (c5TD (2 * i)) ∧
        rangeInTileDomainHi c5Dom c5Ext c5Range c5TD i =
          min ((c5Range (2 * i + 1) - c5Dom (2 * i)).fdiv (c5Ext i))
            (c5TD (2 * i + 1))) ∧
      ((initRangeInTileDomain 1 c5Dom c5Ext c5Range c5TD = [Overlap.none]) ↔
        ∃ i < 1,
          rangeInTileDomainHi c5Dom c5Ext c5Range c5TD i <
            rangeInTileDomainLo c5Dom c5Ext c5Range c5TD i)) :=
  ⟨by decide,
   initRangeInTileDomain_floor_and_sentinel 1 c5Dom c5Ext c5Range c5TD
     (by decide) (by decide) (by decide)⟩

theorem listGetD_set_self {α : Type} (l : List α) (i : Nat) (a d : α)
    (h : i < l.length) : (l.set i a).getD i d = a := by
  induction l generalizing i with
  | nil => simp at h
  | cons x xs ih =>
    cases i with
    | zero => rfl
    | succ n => simpa using ih n (by simpa using h)

theorem sparseTileSearchLoop_fetched (env : SEnv) :
    ∀ (fuel : Nat) (tp : Int) (e : OverTile),
      (sparseTileSearchLoop env fuel tp e).coordsTileFetched =
        e.coordsTileFetched := by
  intro fuel
  induction fuel with
  | zero => intro tp e; rfl
  | succ n ih =>
    intro tp e
    unfold sparseTileSearchLoop
    split
    · rw [ih]
    · rfl

theorem mkSparse_fetched_false (env : SEnv) (s : SState) :
    (mkSparseOverlappingTile env s).coordsTileFetched = false := by
  unfold mkSparseOverlappingTile
  simp only []
  split
  · rw [sparseTileSearchLoop_fetched]; rfl
  · rfl

/-- C7: for every GZIP tile load that actually goes to disk (the coordinate
fast path excluded by `hfast`), fixed (`get_tile_from_disk_cmp_gzip`) and
variable (`get_tile_from_disk_var_cmp_gzip`) alike: whenever the load returns
success, every `gunzip` stage produced exactly the expected tile logical size
(conjuncts 1 and 3); and whenever a `gunzip` stage produces a byte count
unequal to the expected size, the load does not return success — the
`assert` on the decompressed byte count aborts, a fatal outcome, and no
result is consumed from the tile (conjuncts 2, 4 and 5). -/
theorem gzipLoads_require_expected_decompressed_size
    (env : SEnv) (s : SState) (attributeId : Nat)
    (hfast : ¬(attributeId = env.attributeNum ∧
      (s.currentTile attributeId).coordsTileFetched)) :
    ((getTileFromDiskCmpGzip env s attributeId).1 = RC.ok →
      ∃ content,
        env.gunzip attributeId (gzipFileOffset env s attributeId)
            (gzipCompressedSize env s attributeId)
            (env.tileSizeFull attributeId) =
          Option.some (expectedTileSize env s attributeId, content)) ∧
    (∀ outSize content,
      env.gunzip attributeId (gzipFileOffset env s attributeId)
          (gzipCompressedSize env s attributeId)
          (env.tileSizeFull attributeId) = Option.some (outSize, content) →
      outSize ≠ expectedTileSize env s attributeId →
      (getTileFromDiskCmpGzip env s attributeId).1 ≠ RC.ok) ∧
    ((getTileFromDiskVarCmpGzip env s attributeId).1 = RC.ok →
      (∃ content,
        env.gunzip attributeId (gzipFileOffset env s attributeId)
            (gzipCompressedSize env s attributeId)
            (expectedTileSizeVarAttr s attributeId) =
          Option.some (expectedTileSizeVarAttr s attributeId, content)) ∧
      (∃ contentVar,
        env.gunzipVar attributeId (gzipVarFileOffset env s attributeId)
            (gzipVarCompressedSize env s attributeId)
            (expectedTileVarSize env s attributeId) =
          Option.some (expectedTileVarSize env s attributeId, contentVar))) ∧
    (∀ outSize content,
      env.gunzip attributeId (gzipFileOffset env s attributeId)
          (gzipCompressedSize env s attributeId)
          (expectedTileSizeVarAttr s attributeId) =
        Option.some (outSize, content) →
      outSize ≠ expectedTileSizeVarAttr s attributeId →
      (getTileFromDiskVarCmpGzip env s attributeId).1 ≠ RC.ok) ∧
    (∀ outSizeVar contentVar,
      env.gunzipVar attributeId (gzipVarFileOffset env s attributeId)
          (gzipVarCompressedSize env s attributeId)
          (expectedTileVarSize env s attributeId) =
        Option.some (outSizeVar, contentVar) →
      outSizeVar ≠ expectedTileVarSize env s attributeId →
      (getTileFromDiskVarCmpGzip env s attributeId).1 ≠ RC.ok) := by
  refine ⟨?_, ?_, ?_, ?_, ?_⟩
  · intro h
    unfold getTileFromDiskCmpGzip at h
    rw [if_neg hfast] at h
    simp only [] at h
    cases hro : env.readCmpOk attributeId (gzipFileOffset env s attributeId)
        (gzipCompressedSize env s attributeId) with
    | false => simp [hro] at h
    | true =>
      cases hg : env.gunzip attributeId (gzipFileOffset env s attributeId)
          (gzipCompressedSize env s attributeId)
          (env.tileSizeFull attributeId) with
      | none => simp [hro, hg] at h
      | some oc =>
        obtain ⟨outSize, content⟩ := oc
        by_cases hsz : outSize = expectedTileSize env s attributeId
        · subst hsz
          exact ⟨content, rfl⟩
        · simp [hro, hg, hsz] at h
  · intro outSize content hg hsz h
    unfold getTileFromDiskCmpGzip at h
    rw [if_neg hfast] at h
    simp only [] at h
    cases hro : env.readCmpOk attributeId (gzipFileOffset env s attributeId)
        (gzipCompressedSize env s attributeId) with
    | false => simp [hro] at h
    | true => simp [hro, hg, hsz] at h
  · intro h
    unfold getTileFromDiskVarCmpGzip at h
    simp only [] at h
    cases hro : env.readCmpOk attributeId (gzipFileOffset env s attributeId)
        (gzipCompressedSize env s attributeId) with
    | false => simp [hro] at h
    | true =>
      cases hg : env.gunzip attributeId (gzipFileOffset env s attributeId)
          (gzipCompressedSize env s attributeId)
          (expectedTileSizeVarAttr s attributeId) with
      | none => simp [hro, hg] at h
      | some oc =>
        obtain ⟨o1, c1⟩ := oc
        by_cases hsz : o1 = expectedTileSizeVarAttr s attributeId
        · subst hsz
          cases hro2 : env.readCmpVarOk attributeId
              (gzipVarFileOffset env s attributeId)
              (gzipVarCompressedSize env s attributeId) with
          | false => simp [hro, hg, hro2] at h
          | true =>
            cases hg2 : env.gunzipVar attributeId
                (gzipVarFileOffset env s attributeId)
                (gzipVarCompressedSize env s attributeId)
                (expectedTileVarSize env s attributeId) with
            | none => simp [hro, hg, hro2, hg2] at h
            | some oc2 =>
              obtain ⟨o2, c2⟩ := oc2
              by_cases hsz2 : o2 = expectedTileVarSize env s attributeId
              · subst hsz2
                exact ⟨⟨c1, rfl⟩, ⟨c2, rfl⟩⟩
              · simp [hro, hg, hro2, hg2, hsz2] at h
        · simp [hro, hg, hsz] at h
  · intro outSize content hg hsz h
    unfold getTileFromDiskVarCmpGzip at h
    simp only [] at h
    cases hro : env.readCmpOk attributeId (gzipFileOffset env s attributeId)
        (gzipCompressedSize env s attributeId) with
    | false => simp [hro] at h
    | true => simp [hro, hg, hsz] at h
  · intro outSizeVar contentVar hg2 hsz2 h
    unfold getTileFromDiskVarCmpGzip at h
    simp only [] at h
    cases hro : env.readCmpOk attributeId (gzipFileOffset env s attributeId)
        (gzipCompressedSize env s attributeId) with
    | false => simp [hro] at h
    | true =>
      cases hg : env.gunzip attributeId (gzipFileOffset env s attributeId)
          (gzipCompressedSize env s attributeId)
          (expectedTileSizeVarAttr s attributeId) with
      | none => simp [hro, hg] at h
      | some oc =>
        obtain ⟨o1, c1⟩ := oc
        by_cases hsz : o1 = expectedTileSizeVarAttr s attributeId
        · subst hsz
          cases hro2 : env.readCmpVarOk attributeId
              (gzipVarFileOffset env s attributeId)
              (gzipVarCompressedSize env s attributeId) with
          | false => simp [hro, hg, hro2] at h
          | true => simp [hro, hg, hro2, hg2, hsz2] at h
        · simp [hro, hg, hsz] at h

/-- C7 witness: in the concrete environment `wEnv` (whose `gunzip` returns
exactly the requested capacity) both loads of attribute `0` return success,
and the theorem yields the matching decompressed sizes. -/
theorem gzipLoads_require_expected_decompressed_size_witness :
    (∃ content,
      wEnv.gunzip 0 (gzipFileOffset wEnv wState 0)
          (gzipCompressedSize wEnv wState 0) (wEnv.tileSizeFull 0) =
        Option.some (expectedTileSize wEnv wState 0, content)) ∧
    (∃ contentVar,
      wEnv.gunzipVar 0 (gzipVarFileOffset wEnv wState 0)
          (gzipVarCompressedSize wEnv wState 0)
          (expectedTileVarSize wEnv wState 0) =
        Option.some (expectedTileVarSize wEnv wState 0, contentVar)) :=
  ⟨(gzipLoads_require_expected_decompressed_size wEnv wState 0 (by decide)).1
     (by decide),
   ((gzipLoads_require_expected_decompressed_size wEnv wState 0
       (by decide)).2.2.1 (by decide)).2⟩

/-- C10: (1) the entry built and pushed by
`get_next_overlapping_tile_sparse` carries `coords_tile_fetched_ = false`;
(2) once the flag is set, a load request for the coordinates attribute — both
the uncompressed and the GZIP loader — returns success with the state fully
unchanged, for *every* file system and `gunzip` behaviour (so the file is not
touched); (3) while the flag is still false, a successful uncompressed load
for the coordinates attribute returns success and sets the flag on that
entry. -/
theorem coordsTile_fetched_at_most_once (env : SEnv) (s : SState)
    (hvalid : (s.overlappingTilesPos env.attributeNum).toNat <
      s.overlappingTiles.length) :
    (mkSparseOverlappingTile env s).coordsTileFetched = false ∧
    ((s.currentTile env.attributeNum).coordsTileFetched = true →
      getTileFromDiskCmpNone env s env.attributeNum = (RC.ok, s) ∧
      getTileFromDiskCmpGzip env s env.attributeNum = (RC.ok, s)) ∧
    ((s.currentTile env.attributeNum).coordsTileFetched = false →
      ∀ content,
        env.readTile env.attributeNum
            ((s.currentTile env.attributeNum).pos *
              (env.tileSizeFull env.attributeNum : Int)).toNat
            ((s.currentTile env.attributeNum).cellNum *
              env.cellSize env.attributeNum) = Option.some content →
        (getTileFromDiskCmpNone env s env.attributeNum).1 = RC.ok ∧
        (((getTileFromDiskCmpNone env s env.attributeNum).2).currentTile
            env.attributeNum).coordsTileFetched = true) := by
  refine ⟨mkSparse_fetched_false env s, ?_, ?_⟩
  · intro hf
    constructor
    · unfold getTileFromDiskCmpNone
      rw [if_pos ⟨rfl, hf⟩]
    · unfold getTileFromDiskCmpGzip
      rw [if_pos ⟨rfl, hf⟩]
  · intro hf content hread
    have hcond : ¬(env.attributeNum = env.attributeNum ∧
        (s.currentTile env.attributeNum).coordsTileFetched) := by
      rintro ⟨-, hc⟩
      rw [hf] at hc
      exact Bool.false_ne_true hc
    unfold getTileFromDiskCmpNone
    rw [if_neg hcond]
    simp only []
    rw [hread]
    refine ⟨rfl, ?_⟩
    unfold SState.markCoordsFetched SState.currentTile
    simp only [if_true]
    rw [listGetD_set_self _ _ _ _ hvalid]

/-- C10 witness: in `wState` the single entry's flag is already set, so both
loaders return success leaving the state untouched, and a freshly built entry
has the flag clear. -/
theorem coordsTile_fetched_at_most_once_witness :
    getTileFromDiskCmpNone wEnv wState wEnv.attributeNum = (RC.ok, wState) ∧
    getTileFromDiskCmpGzip wEnv wState wEnv.attributeNum = (RC.ok, wState) ∧
    (mkSparseOverlappingTile wEnv wState).coordsTileFetched = false :=
  ⟨((coordsTile_fetched_at_most_once wEnv wState (by decide)).2.1
      (by decide)).1,
   ((coordsTile_fetched_at_most_once wEnv wState (by decide)).2.1
      (by decide)).2,
   (coordsTile_fetched_at_most_once wEnv wState (by decide)).1⟩

/-- C8 counterexample: a read call for an empty attribute (no file exists
for attribute `0`) issued with a zero-size buffer.  `read_dense_attr` hits
its trivial case first (read_state.cc:3382-3385) and *sets the overflow
flag* (result flag `true`, entering with `false`), returning success —
contradicting the claim that a read of an empty attribute "does not set the
attribute's overflow flag".  The same happens on the variable sparse path
(read_state.cc:4160-4165).  The second conjunct confirms the attribute is
empty. -/
theorem emptyAttribute_zero_buffer_sets_overflow :
    readDenseAttr (fun _ => false) Compression.noCmp CoordsType.cInt 0 0 false
        haltCont haltCont haltCont haltCont = (RC.ok, 0, true) ∧
    isEmptyAttribute (fun _ => false) 0 = true ∧
    readSparseAttrVar (fun _ => false) Compression.noCmp CoordsType.cInt 0 0 5
        false haltContVar haltContVar haltContVar haltContVar
        haltContVar haltContVar haltContVar haltContVar = (RC.ok, 0, 0, true) :=
  ⟨by decide, by decide, by decide⟩

/-- C8 (amended): for every requested attribute whose file does not exist,
*provided the caller supplies nonzero buffer sizes*, the per-attribute read
returns success, sets the returned size (and, for variable attributes, both
sizes) to zero, and leaves the attribute's overflow flag unchanged — for
every compression, coordinate type and copy-loop body. -/
theorem emptyAttribute_read_returns_zero_without_overflow
    (isFile : Nat → Bool) (compression : Compression)
    (coordsType : CoordsType) (attributeId bufferSize bufferVarSize : Nat)
    (overflow : Bool)
    (c1 c2 c3 c4 : Nat → Bool → RC × Nat × Bool)
    (v1 v2 v3 v4 v5 v6 v7 v8 : Nat → Nat → Bool → RC × Nat × Nat × Bool)
    (hempty : isEmptyAttribute isFile attributeId = true)
    (hsz : bufferSize ≠ 0) (hszv : bufferVarSize ≠ 0) :
    readDenseAttr isFile compression coordsType attributeId bufferSize
        overflow c1 c2 c3 c4 = (RC.ok, 0, overflow) ∧
    readSparseAttrVar isFile compression coordsType attributeId bufferSize
        bufferVarSize overflow v1 v2 v3 v4 v5 v6 v7 v8 =
      (RC.ok, 0, 0, overflow) := by
  constructor
  · unfold readDenseAttr
    rw [if_neg hsz]
    cases compression with
    | noCmp =>
      unfold readDenseAttrCmpNone
      rw [hempty]
      rfl
    | gzip =>
      unfold readDenseAttrCmpGzip
      rw [hempty]
      rfl
  · unfold readSparseAttrVar
    rw [if_neg (by exact fun h => h.elim hsz hszv)]
    cases compression with
    | noCmp =>
      unfold readSparseAttrVarCmpNone
      rw [hempty]
      rfl
    | gzip =>
      unfold readSparseAttrVarCmpGzip
      rw [hempty]
      rfl

/-- C8 witness: the amended theorem applied at an empty attribute with
8-byte buffers. -/
theorem emptyAttribute_read_returns_zero_without_overflow_witness :
    isEmptyAttribute (fun _ => false) 0 = true ∧
    (readDenseAttr (fun _ => false) Compression.noCmp CoordsType.cInt 0 8
        false haltCont haltCont haltCont haltCont = (RC.ok, 0, false) ∧
     readSparseAttrVar (fun _ => false) Compression.noCmp CoordsType.cInt 0 8
        8 false haltContVar haltContVar haltContVar haltContVar
        haltContVar haltContVar haltContVar haltContVar =
      (RC.ok, 0, 0, false)) :=
  ⟨by decide,
   emptyAttribute_read_returns_zero_without_overflow (fun _ => false)
     Compression.noCmp CoordsType.cInt 0 8 8 false
     haltCont haltCont haltCont haltCont
     haltContVar haltContVar haltContVar haltContVar
     haltContVar haltContVar haltContVar haltContVar
     (by decide) (by decide) (by decide)⟩

/-- C9: `read()` assigns `false` to every per-attribute overflow flag
(second conjunct) before dispatching any copy work, so its outcome — return
code and final state, hence the observable overflow flags — is identical for
any two initial overflow configurations, whatever the mode, density and
dense/sparse dispatch bodies (first conjunct): the overflow state after a
call reflects only that call. -/
theorem readCall_resets_overflow_before_dispatch {ρ : Type}
    (mode : ArrayMode) (dense : Bool)
    (readDense readSparse : RState ρ → RC × RState ρ)
    (ov ov' : Nat → Bool) (r : ρ) :
    readCall mode dense readDense readSparse ⟨ov, r⟩ =
      readCall mode dense readDense readSparse ⟨ov', r⟩ ∧
    (∀ i, (resetOverflow (⟨ov, r⟩ : RState ρ)).overflow i = false) :=
  ⟨rfl, fun _ => rfl⟩

/-- Antisymmetry of the row-major comparator. -/
theorem cmpRowList_asym :
    ∀ a b : List Int, cmpRowList a b < 0 ↔ 0 < cmpRowList b a := by
  intro a
  induction a with
  | nil => intro b; cases b <;> simp [cmpRowList]
  | cons x xs ih =>
    intro b
    cases b with
    | nil => simp [cmpRowList]
    | cons y ys =>
      by_cases hxy : x < y
      · simp [cmpRowList, hxy, not_lt.mpr (le_of_lt hxy), ne_of_lt hxy]
      · by_cases hyx : y < x
        · simp [cmpRowList, hxy, hyx]
        · have : x = y := le_antisymm (not_lt.mp hyx) (not_lt.mp hxy)
          subst this
          simp [cmpRowList, ih]

/-- Transitivity (strict/non-strict) of the row-major comparator on
equal-length coordinate lists; false for ragged lists, hence the length
hypotheses. -/
theorem cmpRowList_trans_lt_le :
    ∀ a b c : List Int, a.length = b.length → b.length = c.length →
      cmpRowList a b < 0 → cmpRowList b c ≤ 0 → cmpRowList a c < 0 := by
  intro a
  induction a with
  | nil =>
    intro b c _ _ h1 _
    cases b <;> simp [cmpRowList] at h1
  | cons x xs ih =>
    intro b c hab hbc h1 h2
    cases b with
    | nil => simp at hab
    | cons y ys =>
      cases c with
      | nil => simp at hbc
      | cons z zs =>
        simp only [List.length_cons, Nat.succ_inj] at hab hbc
        by_cases hxy : x < y <;> by_cases hyz : y < z
        · simp [cmpRowList, show x < z from lt_trans hxy hyz]
        · have hzy : z ≤ y := not_lt.mp hyz
          by_cases hyz' : y > z
          · simp [cmpRowList, hyz, hyz'] at h2
          · have : y = z := le_antisymm (not_lt.mp hyz') hzy
            subst this
            simp [cmpRowList, hxy]
        · have hyx : y ≤ x := not_lt.mp hxy
          simp only [cmpRowList, if_neg hxy] at h1
          by_cases hxy' : x > y
          · simp [if_pos hxy'] at h1
          · have : x = y := le_antisymm (not_lt.mp hxy') hyx
            subst this
            simp [cmpRowList, hyz]
        · have hyx : y ≤ x := not_lt.mp hxy
          have hzy : z ≤ y := not_lt.mp hyz
          simp only [cmpRowList, if_neg hxy] at h1
          simp only [cmpRowList, if_neg hyz] at h2
          by_cases hxy' : x > y
          · simp [if_pos hxy'] at h1
          · by_cases hyz' : y > z
            · simp [if_pos hyz'] at h2
            · have hx : x = y := le_antisymm (not_lt.mp hxy') hyx
              have hy : y = z := le_antisymm (not_lt.mp hyz') hzy
              subst hx; subst hy
              simp only [if_neg hxy', if_neg hyz'] at h1 h2
              simp [cmpRowList, lt_irrefl, gt_irrefl]
              exact ih ys zs hab hbc h1 h2

/-- Transitivity (non-strict/strict) of the row-major comparator on
equal-length coordinate lists. -/
theorem cmpRowList_trans_le_lt :
    ∀ a b c : List Int, a.length = b.length → b.length = c.length →
      cmpRowList a b ≤ 0 → cmpRowList b c < 0 → cmpRowList a c < 0 := by
  intro a
  induction a with
  | nil =>
    intro b c hab hbc _ h2
    cases b with
    | nil =>
      cases c <;> simp [cmpRowList] at h2 ⊢
    | cons y ys => simp at hab
  | cons x xs ih =>
    intro b c hab hbc h1 h2
    cases b with
    | nil => simp at hab
    | cons y ys =>
      cases c with
      | nil => simp at hbc
      | cons z zs =>
        simp only [List.length_cons, Nat.succ_inj] at hab hbc
        by_cases hxy : x < y <;> by_cases hyz : y < z
        · simp [cmpRowList, show x < z from lt_trans hxy hyz]
        · have hzy : z ≤ y := not_lt.mp hyz
          by_cases hyz' : y > z
          · simp [cmpRowList, hyz, hyz'] at h2
          · have : y = z := le_antisymm (not_lt.mp hyz') hzy
            subst this
            simp [cmpRowList, hxy]
        · have hyx : y ≤ x := not_lt.mp hxy
          simp only [cmpRowList, if_neg hxy] at h1
          by_cases hxy' : x > y
          · simp [if_pos hxy'] at h1
          · have : x = y := le_antisymm (not_lt.mp hxy') hyx
            subst this
            simp [cmpRowList, hyz]
        · have hyx : y ≤ x := not_lt.mp hxy
          have hzy : z ≤ y := not_lt.mp hyz
          simp only [cmpRowList, if_neg hxy] at h1
          simp only [cmpRowList, if_neg hyz] at h2
          by_cases hxy' : x > y
          · simp [if_pos hxy'] at h1
          · by_cases hyz' : y > z
            · simp [if_pos hyz'] at h2
            · have hx : x = y := le_antisymm (not_lt.mp hxy') hyx
              have hy : y = z := le_antisymm (not_lt.mp hyz') hzy
              subst hx; subst hy
              simp only [if_neg hxy', if_neg hyz'] at h1 h2
              simp [cmpRowList, lt_irrefl, gt_irrefl]
              exact ih ys zs hab hbc h1 h2

/-- Antisymmetry of the column-major comparator, via the row comparator on
reversed lists. -/
theorem cmpColList_asym : ∀ a b : List Int, cmpColList a b < 0 ↔ 0 < cmpColList b a := by
  intro a b
  unfold cmpColList
  exact cmpRowList_asym _ _

/-- Transitivity (strict/non-strict) of the column-major comparator. -/
theorem cmpColList_trans_lt_le :
    ∀ a b c : List Int, a.length = b.length → b.length = c.length →
      cmpColList a b < 0 → cmpColList b c ≤ 0 → cmpColList a c < 0 := by
  intro a b c hab hbc h1 h2
  unfold cmpColList at h1 h2 ⊢
  exact cmpRowList_trans_lt_le _ _ _ (by simpa using hab) (by simpa using hbc) h1 h2

/-- Transitivity (non-strict/strict) of the column-major comparator. -/
theorem cmpColList_trans_le_lt :
    ∀ a b c : List Int, a.length = b.length → b.length = c.length →
      cmpColList a b ≤ 0 → cmpColList b c < 0 → cmpColList a c < 0 := by
  intro a b c hab hbc h1 h2
  unfold cmpColList at h1 h2 ⊢
  exact cmpRowList_trans_le_lt _ _ _ (by simpa using hab) (by simpa using hbc) h1 h2

/-- Exit invariants of the shared three-way binary-search loop under a
monotone probe: positions left of the final `min` probe positive, positions
right of the final `max` probe negative; a normal exit has `min = max + 1`
and a break exit pins `probe med = 0` with `min ≤ med ≤ max`. -/
theorem bsearch3_exit (probe : Int → Int) (lo hi : Int)
    (hdn : ∀ i j : Int, lo ≤ i → i ≤ j → j ≤ hi → probe i < 0 → probe j < 0)
    (hup : ∀ i j : Int, lo ≤ i → i ≤ j → j ≤ hi → 0 < probe j → 0 < probe i) :
    ∀ (fuel : Nat) (mn mx med : Int),
      lo ≤ mn → mx ≤ hi → mn ≤ mx + 1 →
      (∀ i, lo ≤ i → i < mn → 0 < probe i) →
      (∀ i, mx < i → i ≤ hi → probe i < 0) →
      (mx - mn + 1).toNat ≤ fuel →
      (∀ i, lo ≤ i → i < (bsearch3 probe fuel mn mx med).1 → 0 < probe i) ∧
      (∀ i, (bsearch3 probe fuel mn mx med).2.1 < i → i ≤ hi → probe i < 0) ∧
      lo ≤ (bsearch3 probe fuel mn mx med).1 ∧
      (bsearch3 probe fuel mn mx med).2.1 ≤ hi ∧
      ((bsearch3 probe fuel mn mx med).2.1 < (bsearch3 probe fuel mn mx med).1 →
        (bsearch3 probe fuel mn mx med).1 = (bsearch3 probe fuel mn mx med).2.1 + 1) ∧
      ((bsearch3 probe fuel mn mx med).1 ≤ (bsearch3 probe fuel mn mx med).2.1 →
        probe (bsearch3 probe fuel mn mx med).2.2 = 0 ∧
        (bsearch3 probe fuel mn mx med).1 ≤ (bsearch3 probe fuel mn mx med).2.2 ∧
        (bsearch3 probe fuel mn mx med).2.2 ≤ (bsearch3 probe fuel mn mx med).2.1) := by
  intro fuel
  induction fuel with
  | zero =>
    intro mn mx med hlo hhi hmn hinv1 hinv2 hfuel
    have hlt : mx < mn := by omega
    simp only [bsearch3]
    refine ⟨hinv1, hinv2, hlo, hhi, ?_, ?_⟩
    · intro _; omega
    · intro h; omega
  | succ n ih =>
    intro mn mx med hlo hhi hmn hinv1 hinv2 hfuel
    by_cases hmnmx : mn ≤ mx
    · have h2 : (0 : Int) ≤ mx - mn := by omega
      have htd0 : (0 : Int) ≤ (mx - mn).tdiv 2 := Int.tdiv_nonneg h2 (by norm_num)
      have htd1 : (mx - mn).tdiv 2 ≤ mx - mn := by
        rw [Int.tdiv_eq_ediv h2 (by norm_num)]
        exact Int.ediv_le_self 2 h2
      have hmed1 : mn ≤ mn + (mx - mn).tdiv 2 := by omega
      have hmed2 : mn + (mx - mn).tdiv 2 ≤ mx := by omega
      unfold bsearch3
      rw [if_pos hmnmx]
      simp only []
      by_cases hc1 : probe (mn + (mx - mn).tdiv 2) < 0
      · rw [if_pos hc1]
        refine ih mn (mn + (mx - mn).tdiv 2 - 1) (mn + (mx - mn).tdiv 2)
          hlo (by omega) (by omega) hinv1 ?_ (by omega)
        intro i hi1 hi2
        rcases lt_or_le mx i with hcase | hcase
        · exact hinv2 i hcase hi2
        · exact hdn (mn + (mx - mn).tdiv 2) i (by omega) (by omega)
            (by omega) hc1
      · rw [if_neg hc1]
        by_cases hc2 : 0 < probe (mn + (mx - mn).tdiv 2)
        · rw [if_pos hc2]
          refine ih (mn + (mx - mn).tdiv 2 + 1) mx (mn + (mx - mn).tdiv 2)
            (by omega) hhi (by omega) ?_ hinv2 (by omega)
          intro i hi1 hi2
          rcases lt_or_le i mn with hcase | hcase
          · exact hinv1 i hi1 hcase
          · exact hup i (mn + (mx - mn).tdiv 2) hi1 (by omega) (by omega) hc2
        · rw [if_neg hc2]
          dsimp only
          refine ⟨hinv1, hinv2, hlo, hhi, ?_, ?_⟩
          · intro h; omega
          · intro _
            exact ⟨by omega, hmed1, hmed2⟩
    · unfold bsearch3
      rw [if_neg hmnmx]
      dsimp only
      refine ⟨hinv1, hinv2, hlo, hhi, ?_, ?_⟩
      · intro _; omega
      · intro h; omega

/-- The start-position selection (`min` on normal exit, the breaking `med`
otherwise) is the least position with `probe ≤ 0`, provided a break can
only happen strictly above every positive-probing position (`hbrk`). -/
theorem bsearchFirst_spec (probe : Int → Int) (T : Nat)
    (hdn : ∀ i j : Int, 0 ≤ i → i ≤ j → j ≤ (T : Int) - 1 → probe i < 0 → probe j < 0)
    (hup : ∀ i j : Int, 0 ≤ i → i ≤ j → j ≤ (T : Int) - 1 → 0 < probe j → 0 < probe i)
    (hbrk : ∀ i j : Int, 0 ≤ i → i < j → j ≤ (T : Int) - 1 → probe j = 0 → 0 < probe i) :
    0 ≤ tileSearchFirst probe T ∧
    ∀ t : Nat, t < T → (probe t ≤ 0 ↔ tileSearchFirst probe T ≤ (t : Int)) := by
  obtain ⟨inv1, inv2, hlo, hhi, hnorm, hbr⟩ :=
    bsearch3_exit probe 0 ((T : Int) - 1) hdn hup (T + 2) 0 ((T : Int) - 1) 0
      le_rfl le_rfl (by omega)
      (by intro i h1 h2; exact absurd h2 (by omega))
      (by intro i h1 h2; exact absurd h1 (by omega))
      (by omega)
  unfold tileSearchFirst
  set r := bsearch3 probe (T + 2) 0 ((T : Int) - 1) 0 with hr
  by_cases hc : r.2.1 < r.1
  · rw [if_pos hc]
    have he := hnorm hc
    refine ⟨hlo, ?_⟩
    intro t ht
    constructor
    · intro hp
      by_contra hlt
      push_neg at hlt
      have := inv1 (t : Int) (by omega) (by omega)
      omega
    · intro hge
      have := inv2 (t : Int) (by omega) (by omega)
      omega
  · rw [if_neg hc]
    push_neg at hc
    obtain ⟨hp0, hle1, hle2⟩ := hbr hc
    refine ⟨by omega, ?_⟩
    intro t ht
    constructor
    · intro hp
      by_contra hlt
      push_neg at hlt
      have := hbrk (t : Int) r.2.2 (by omega) (by omega) (by omega) hp0
      omega
    · intro hge
      rcases eq_or_lt_of_le hge with heq | hlt
      · rw [← heq]
        omega
      · by_contra hpos
        push_neg at hpos
        have := hup r.2.2 (t : Int) (by omega) (by omega) (by omega) hpos
        omega

/-- The end-position selection (`max` on normal exit, the breaking `med`
otherwise) is the greatest position with `probe ≥ 0`, provided a break can
only happen strictly below every negative-probing position (`hbrk2`). -/
theorem bsearchLast_spec (probe : Int → Int) (T : Nat)
    (hdn : ∀ i j : Int, 0 ≤ i → i ≤ j → j ≤ (T : Int) - 1 → probe i < 0 → probe j < 0)
    (hup : ∀ i j : Int, 0 ≤ i → i ≤ j → j ≤ (T : Int) - 1 → 0 < probe j → 0 < probe i)
    (hbrk2 : ∀ i j : Int, 0 ≤ i → i < j → j ≤ (T : Int) - 1 → probe i = 0 → probe j < 0) :
    tileSearchLast probe T ≤ (T : Int) - 1 ∧
    ∀ t : Nat, t < T → (0 ≤ probe t ↔ (t : Int) ≤ tileSearchLast probe T) := by
  obtain ⟨inv1, inv2, hlo, hhi, hnorm, hbr⟩ :=
    bsearch3_exit probe 0 ((T : Int) - 1) hdn hup (T + 2) 0 ((T : Int) - 1) 0
      le_rfl le_rfl (by omega)
      (by intro i h1 h2; exact absurd h2 (by omega))
      (by intro i h1 h2; exact absurd h1 (by omega))
      (by omega)
  unfold tileSearchLast
  set r := bsearch3 probe (T + 2) 0 ((T : Int) - 1) 0 with hr
  by_cases hc : r.2.1 < r.1
  · rw [if_pos hc]
    have he := hnorm hc
    refine ⟨hhi, ?_⟩
    intro t ht
    constructor
    · intro hp
      by_contra hlt
      push_neg at hlt
      have := inv2 (t : Int) (by omega) (by omega)
      omega
    · intro hle
      have := inv1 (t : Int) (by omega) (by omega)
      omega
  · rw [if_neg hc]
    push_neg at hc
    obtain ⟨hp0, hle1, hle2⟩ := hbr hc
    refine ⟨by omega, ?_⟩
    intro t ht
    constructor
    · intro hp
      by_contra hlt
      push_neg at hlt
      have := hbrk2 r.2.2 (t : Int) (by omega) (by omega) (by omega) hp0
      omega
    · intro hle
      rcases eq_or_lt_of_le hle with heq | hlt
      · rw [heq]
        omega
      · by_contra hneg
        push_neg at hneg
        have := hdn (t : Int) r.2.2 (by omega) (by omega) (by omega) (by omega)
        omega

/-- In a fragment whose tiles are sorted with disjoint bounding intervals
(first ≤ last within a tile, last < next first across tiles), the last
bounding coordinate of an earlier tile precedes the first bounding
coordinate of any later tile. -/
theorem cmpChainLF (cmp : List Int → List Int → Int)
    (hltle : ∀ a b c : List Int, a.length = b.length → b.length = c.length →
      cmp a b < 0 → cmp b c ≤ 0 → cmp a c < 0)
    (dimNum T : Nat) (F L : Nat → List Int)
    (hlF : ∀ t, (F t).length = dimNum) (hlL : ∀ t, (L t).length = dimNum)
    (hFL : ∀ t, t < T → cmp (F t) (L t) ≤ 0)
    (hLF : ∀ t, t + 1 < T → cmp (L t) (F (t + 1)) < 0) :
    ∀ i j : Nat, i < j → j < T → cmp (L i) (F j) < 0 := by
  have hstep : ∀ d i : Nat, i + 1 + d < T → cmp (L i) (F (i + 1 + d)) < 0 := by
    intro d
    induction d with
    | zero => intro i h; exact hLF i (by omega)
    | succ n ih =>
      intro i h
      have h1 : cmp (L i) (F (i + 1 + n)) < 0 := ih i (by omega)
      have h2 : cmp (F (i + 1 + n)) (L (i + 1 + n)) ≤ 0 := hFL _ (by omega)
      have h3 : cmp (L (i + 1 + n)) (F (i + 1 + n + 1)) < 0 := hLF _ (by omega)
      have h4 : cmp (L i) (L (i + 1 + n)) < 0 :=
        hltle _ _ _ (by rw [hlL, hlF]) (by rw [hlF, hlL]) h1 h2
      have h5 : cmp (L i) (F (i + 1 + n + 1)) < 0 :=
        hltle _ _ _ (by rw [hlL, hlL]) (by rw [hlL, hlF]) h4 (le_of_lt h3)
      have heq : i + 1 + (n + 1) = i + 1 + n + 1 := by omega
      rw [heq]
      exact h5
  intro i j hij hj
  obtain ⟨d, rfl⟩ : ∃ d, j = i + 1 + d := ⟨j - i - 1, by omega⟩
  exact hstep d i hj

/-- The range-min search of the tile-search initialisers returns the
position of the first tile whose last bounding coordinate is ≥ the key
under the comparator (`cmp key (last t) ≤ 0` exactly for the tiles at or
after the returned position). -/
theorem mbrFirst_spec (cmp : List Int → List Int → Int)
    (hasym : ∀ a b : List Int, cmp a b < 0 ↔ 0 < cmp b a)
    (hltle : ∀ a b c : List Int, a.length = b.length → b.length = c.length →
      cmp a b < 0 → cmp b c ≤ 0 → cmp a c < 0)
    (hlelt : ∀ a b c : List Int, a.length = b.length → b.length = c.length →
      cmp a b ≤ 0 → cmp b c < 0 → cmp a c < 0)
    (dimNum T : Nat) (F L : Nat → List Int) (key : List Int)
    (hlF : ∀ t, (F t).length = dimNum) (hlL : ∀ t, (L t).length = dimNum)
    (hlk : key.length = dimNum)
    (hFL : ∀ t, t < T → cmp (F t) (L t) ≤ 0)
    (hLF : ∀ t, t + 1 < T → cmp (L t) (F (t + 1)) < 0) :
    0 ≤ tileSearchFirst (mbrProbe cmp F L key) T ∧
    ∀ t : Nat, t < T →
      (cmp key (L t) ≤ 0 ↔ tileSearchFirst (mbrProbe cmp F L key) T ≤ (t : Int)) := by
  have hchain := cmpChainLF cmp hltle dimNum T F L hlF hlL hFL hLF
  have hFF : ∀ i j : Nat, i < j → j < T → cmp (F i) (F j) < 0 := by
    intro i j hij hj
    exact hlelt _ _ _ (by rw [hlF, hlL]) (by rw [hlL, hlF])
      (hFL i (by omega)) (hchain i j hij hj)
  have hLL : ∀ i j : Nat, i < j → j < T → cmp (L i) (L j) < 0 := by
    intro i j hij hj
    exact hltle _ _ _ (by rw [hlL, hlF]) (by rw [hlF, hlL])
      (hchain i j hij hj) (hFL j hj)
  set p := mbrProbe cmp F L key with hp
  have peval : ∀ i : Int, p i =
      if cmp key (F i.toNat) < 0 then -1
      else if 0 < cmp key (L i.toNat) then 1 else 0 := fun i => rfl
  have hdn : ∀ i j : Int, 0 ≤ i → i ≤ j → j ≤ (T : Int) - 1 → p i < 0 → p j < 0 := by
    intro i j h0 hij hjT hpi
    have hci : cmp key (F i.toNat) < 0 := by
      by_contra hc
      rw [peval i, if_neg hc] at hpi
      by_cases hc2 : 0 < cmp key (L i.toNat)
      · rw [if_pos hc2] at hpi; omega
      · rw [if_neg hc2] at hpi; omega
    have hcj : cmp key (F j.toNat) < 0 := by
      rcases eq_or_lt_of_le hij with heq | hlt
      · rw [← heq]; exact hci
      · exact hltle _ _ _ (by rw [hlk, hlF]) (by rw [hlF, hlF]) hci
          (le_of_lt (hFF _ _ (by omega) (by omega)))
    rw [peval j, if_pos hcj]; omega
  have hup : ∀ i j : Int, 0 ≤ i → i ≤ j → j ≤ (T : Int) - 1 → 0 < p j → 0 < p i := by
    intro i j h0 hij hjT hpj
    have hcj2 : 0 < cmp key (L j.toNat) := by
      by_contra hc
      rw [peval j] at hpj
      by_cases hj1 : cmp key (F j.toNat) < 0
      · rw [if_pos hj1] at hpj; omega
      · rw [if_neg hj1, if_neg hc] at hpj; omega
    have hci2 : 0 < cmp key (L i.toNat) := by
      rcases eq_or_lt_of_le hij with heq | hlt
      · rw [heq]; exact hcj2
      · have hLij : cmp (L i.toNat) (L j.toNat) < 0 := hLL _ _ (by omega) (by omega)
        have hLjk : cmp (L j.toNat) key < 0 := (hasym _ _).mpr hcj2
        have hLik : cmp (L i.toNat) key < 0 :=
          hltle _ _ _ (by rw [hlL, hlL]) (by rw [hlL, hlk]) hLij (le_of_lt hLjk)
        exact (hasym _ _).mp hLik
    have hci1 : ¬ cmp key (F i.toNat) < 0 := by
      intro hc
      have : cmp key (L i.toNat) < 0 :=
        hltle _ _ _ (by rw [hlk, hlF]) (by rw [hlF, hlL]) hc (hFL i.toNat (by omega))
      omega
    rw [peval i, if_neg hci1, if_pos hci2]; omega
  have hbrk : ∀ i j : Int, 0 ≤ i → i < j → j ≤ (T : Int) - 1 → p j = 0 → 0 < p i := by
    intro i j h0 hij hjT hpj
    have hcj1 : ¬ cmp key (F j.toNat) < 0 := by
      intro hc
      rw [peval j, if_pos hc] at hpj; omega
    have hFjk : cmp (F j.toNat) key ≤ 0 := by
      by_contra hc
      push_neg at hc
      exact hcj1 ((hasym _ _).mpr hc)
    have hchainij : cmp (L i.toNat) (F j.toNat) < 0 := hchain _ _ (by omega) (by omega)
    have hLik : cmp (L i.toNat) key < 0 :=
      hltle _ _ _ (by rw [hlL, hlF]) (by rw [hlF, hlk]) hchainij hFjk
    have hci2 : 0 < cmp key (L i.toNat) := (hasym _ _).mp hLik
    have hci1 : ¬ cmp key (F i.toNat) < 0 := by
      intro hc
      have : cmp key (L i.toNat) < 0 :=
        hltle _ _ _ (by rw [hlk, hlF]) (by rw [hlF, hlL]) hc (hFL i.toNat (by omega))
      omega
    rw [peval i, if_neg hci1, if_pos hci2]; omega
  obtain ⟨h1, h2⟩ := bsearchFirst_spec p T hdn hup hbrk
  refine ⟨h1, ?_⟩
  intro t ht
  rw [← h2 t ht]
  constructor
  · intro hq
    rw [peval t]
    simp only [Int.toNat_natCast]
    by_cases hc1 : cmp key (F t) < 0
    · rw [if_pos hc1]; omega
    · rw [if_neg hc1, if_neg (by omega : ¬ 0 < cmp key (L t))]
  · intro hp'
    rw [peval t] at hp'
    simp only [Int.toNat_natCast] at hp'
    by_cases hc1 : cmp key (F t) < 0
    · exact le_of_lt (hltle _ _ _ (by rw [hlk, hlF]) (by rw [hlF, hlL]) hc1 (hFL t ht))
    · rw [if_neg hc1] at hp'
      by_cases hc2 : 0 < cmp key (L t)
      · rw [if_pos hc2] at hp'; omega
      · omega

/-- The range-max search of the tile-search initialisers returns the
position of the last tile whose first bounding coordinate is ≤ the key
under the comparator (`0 ≤ cmp key (first t)` exactly for the tiles at or
before the returned position). -/
theorem mbrLast_spec (cmp : List Int → List Int → Int)
    (hasym : ∀ a b : List Int, cmp a b < 0 ↔ 0 < cmp b a)
    (hltle : ∀ a b c : List Int, a.length = b.length → b.length = c.length →
      cmp a b < 0 → cmp b c ≤ 0 → cmp a c < 0)
    (hlelt : ∀ a b c : List Int, a.length = b.length → b.length = c.length →
      cmp a b ≤ 0 → cmp b c < 0 → cmp a c < 0)
    (dimNum T : Nat) (F L : Nat → List Int) (key : List Int)
    (hlF : ∀ t, (F t).length = dimNum) (hlL : ∀ t, (L t).length = dimNum)
    (hlk : key.length = dimNum)
    (hFL : ∀ t, t < T → cmp (F t) (L t) ≤ 0)
    (hLF : ∀ t, t + 1 < T → cmp (L t) (F (t + 1)) < 0) :
    tileSearchLast (mbrProbe cmp F L key) T ≤ (T : Int) - 1 ∧
    ∀ t : Nat, t < T →
      (0 ≤ cmp key (F t) ↔ (t : Int) ≤ tileSearchLast (mbrProbe cmp F L key) T) := by
  have hchain := cmpChainLF cmp hltle dimNum T F L hlF hlL hFL hLF
  have hFF : ∀ i j : Nat, i < j → j < T → cmp (F i) (F j) < 0 := by
    intro i j hij hj
    exact hlelt _ _ _ (by rw [hlF, hlL]) (by rw [hlL, hlF])
      (hFL i (by omega)) (hchain i j hij hj)
  have hLL : ∀ i j : Nat, i < j → j < T → cmp (L i) (L j) < 0 := by
    intro i j hij hj
    exact hltle _ _ _ (by rw [hlL, hlF]) (by rw [hlF, hlL])
      (hchain i j hij hj) (hFL j hj)
  set p := mbrProbe cmp F L key with hp
  have peval : ∀ i : Int, p i =
      if cmp key (F i.toNat) < 0 then -1
      else if 0 < cmp key (L i.toNat) then 1 else 0 := fun i => rfl
  have hdn : ∀ i j : Int, 0 ≤ i → i ≤ j → j ≤ (T : Int) - 1 → p i < 0 → p j < 0 := by
    intro i j h0 hij hjT hpi
    have hci : cmp key (F i.toNat) < 0 := by
      by_contra hc
      rw [peval i, if_neg hc] at hpi
      by_cases hc2 : 0 < cmp key (L i.toNat)
      · rw [if_pos hc2] at hpi; omega
      · rw [if_neg hc2] at hpi; omega
    have hcj : cmp key (F j.toNat) < 0 := by
      rcases eq_or_lt_of_le hij with heq | hlt
      · rw [← heq]; exact hci
      · exact hltle _ _ _ (by rw [hlk, hlF]) (by rw [hlF, hlF]) hci
          (le_of_lt (hFF _ _ (by omega) (by omega)))
    rw [peval j, if_pos hcj]; omega
  have hup : ∀ i j : Int, 0 ≤ i → i ≤ j → j ≤ (T : Int) - 1 → 0 < p j → 0 < p i := by
    intro i j h0 hij hjT hpj
    have hcj2 : 0 < cmp key (L j.toNat) := by
      by_contra hc
      rw [peval j] at hpj
      by_cases hj1 : cmp key (F j.toNat) < 0
      · rw [if_pos hj1] at hpj; omega
      · rw [if_neg hj1, if_neg hc] at hpj; omega
    have hci2 : 0 < cmp key (L i.toNat) := by
      rcases eq_or_lt_of_le hij with heq | hlt
      · rw [heq]; exact hcj2
      · have hLij : cmp (L i.toNat) (L j.toNat) < 0 := hLL _ _ (by omega) (by omega)
        have hLjk : cmp (L j.toNat) key < 0 := (hasym _ _).mpr hcj2
        have hLik : cmp (L i.toNat) key < 0 :=
          hltle _ _ _ (by rw [hlL, hlL]) (by rw [hlL, hlk]) hLij (le_of_lt hLjk)
        exact (hasym _ _).mp hLik
    have hci1 : ¬ cmp key (F i.toNat) < 0 := by
      intro hc
      have : cmp key (L i.toNat) < 0 :=
        hltle _ _ _ (by rw [hlk, hlF]) (by rw [hlF, hlL]) hc (hFL i.toNat (by omega))
      omega
    rw [peval i, if_neg hci1, if_pos hci2]; omega
  have hbrk2 : ∀ i j : Int, 0 ≤ i → i < j → j ≤ (T : Int) - 1 → p i = 0 → p j < 0 := by
    intro i j h0 hij hjT hpi
    have hci2 : ¬ 0 < cmp key (L i.toNat) := by
      intro hc
      rw [peval i] at hpi
      by_cases hc1 : cmp key (F i.toNat) < 0
      · rw [if_pos hc1] at hpi; omega
      · rw [if_neg hc1, if_pos hc] at hpi; omega
    have hkLi : cmp key (L i.toNat) ≤ 0 := by omega
    have hchainij : cmp (L i.toNat) (F j.toNat) < 0 := hchain _ _ (by omega) (by omega)
    have hcj1 : cmp key (F j.toNat) < 0 :=
      hlelt _ _ _ (by rw [hlk, hlL]) (by rw [hlL, hlF]) hkLi hchainij
    rw [peval j, if_pos hcj1]; omega
  obtain ⟨h1, h2⟩ := bsearchLast_spec p T hdn hup hbrk2
  refine ⟨h1, ?_⟩
  intro t ht
  rw [← h2 t ht]
  constructor
  · intro hq
    rw [peval t]
    simp only [Int.toNat_natCast]
    rw [if_neg (by omega : ¬ cmp key (F t) < 0)]
    by_cases hc2 : 0 < cmp key (L t)
    · rw [if_pos hc2]; omega
    · rw [if_neg hc2]
  · intro hp'
    rw [peval t] at hp'
    simp only [Int.toNat_natCast] at hp'
    by_cases hc1 : cmp key (F t) < 0
    · rw [if_pos hc1] at hp'; omega
    · omega

/-- **C6**: for every sparse fragment with row-major or column-major cell
layout whose bounding-coordinate list is sorted in the layout order with
disjoint per-tile bounding intervals, the one-time tile-search-range
initialiser returns `[first, last]` where `first` is the position of the
first tile whose last bounding coordinate is ≥ range_min and `last` is the
position of the last tile whose first bounding coordinate is ≤ range_max
under the layout comparator (characterised as: a tile `t < tile_num`
satisfies `range_min ≤ last_coord(t)` iff `first ≤ t`, and
`first_coord(t) ≤ range_max` iff `t ≤ last`), and for a unary range `last`
equals `first`. -/
theorem initTileSearchRange_row_col_bounds
    (dimNum T : Nat) (bcR : Nat → Nat → Int) (rangeR : Nat → Int)
    (dimNumC Tc : Nat) (bcC : Nat → Nat → Int) (rangeC : Nat → Int)
    (hFLr : ∀ t, t < T →
      cmpRowList (tileFirstCoords dimNum bcR t) (tileLastCoords dimNum bcR t) ≤ 0)
    (hLFr : ∀ t, t + 1 < T →
      cmpRowList (tileLastCoords dimNum bcR t) (tileFirstCoords dimNum bcR (t + 1)) < 0)
    (hFLc : ∀ t, t < Tc →
      cmpColList (tileFirstCoords dimNumC bcC t) (tileLastCoords dimNumC bcC t) ≤ 0)
    (hLFc : ∀ t, t + 1 < Tc →
      cmpColList (tileLastCoords dimNumC bcC t) (tileFirstCoords dimNumC bcC (t + 1)) < 0) :
    (0 ≤ (initTileSearchRangeRow dimNum T bcR rangeR).1 ∧
     (∀ t : Nat, t < T →
       (cmpRowList (rangeMinCoordsOf dimNum rangeR) (tileLastCoords dimNum bcR t) ≤ 0 ↔
        (initTileSearchRangeRow dimNum T bcR rangeR).1 ≤ (t : Int))) ∧
     (isUnaryRange dimNum rangeR = true →
       (initTileSearchRangeRow dimNum T bcR rangeR).2 =
       (initTileSearchRangeRow dimNum T bcR rangeR).1) ∧
     (isUnaryRange dimNum rangeR = false →
       (initTileSearchRangeRow dimNum T bcR rangeR).2 ≤ (T : Int) - 1 ∧
       ∀ t : Nat, t < T →
         (0 ≤ cmpRowList (rangeMaxCoordsOf dimNum rangeR) (tileFirstCoords dimNum bcR t) ↔
          (t : Int) ≤ (initTileSearchRangeRow dimNum T bcR rangeR).2))) ∧
    (0 ≤ (initTileSearchRangeCol dimNumC Tc bcC rangeC).1 ∧
     (∀ t : Nat, t < Tc →
       (cmpColList (rangeMinCoordsOf dimNumC rangeC) (tileLastCoords dimNumC bcC t) ≤ 0 ↔
        (initTileSearchRangeCol dimNumC Tc bcC rangeC).1 ≤ (t : Int))) ∧
     (isUnaryRange dimNumC rangeC = true →
       (initTileSearchRangeCol dimNumC Tc bcC rangeC).2 =
       (initTileSearchRangeCol dimNumC Tc bcC rangeC).1) ∧
     (isUnaryRange dimNumC rangeC = false →
       (initTileSearchRangeCol dimNumC Tc bcC rangeC).2 ≤ (Tc : Int) - 1 ∧
       ∀ t : Nat, t < Tc →
         (0 ≤ cmpColList (rangeMaxCoordsOf dimNumC rangeC) (tileFirstCoords dimNumC bcC t) ↔
          (t : Int) ≤ (initTileSearchRangeCol dimNumC Tc bcC rangeC).2))) := by
  have hfirstR := mbrFirst_spec cmpRowList cmpRowList_asym cmpRowList_trans_lt_le
    cmpRowList_trans_le_lt dimNum T (tileFirstCoords dimNum bcR) (tileLastCoords dimNum bcR)
    (rangeMinCoordsOf dimNum rangeR)
    (by intro t; simp [tileFirstCoords]) (by intro t; simp [tileLastCoords])
    (by simp [rangeMinCoordsOf]) hFLr hLFr
  have hlastR := mbrLast_spec cmpRowList cmpRowList_asym cmpRowList_trans_lt_le
    cmpRowList_trans_le_lt dimNum T (tileFirstCoords dimNum bcR) (tileLastCoords dimNum bcR)
    (rangeMaxCoordsOf dimNum rangeR)
    (by intro t; simp [tileFirstCoords]) (by intro t; simp [tileLastCoords])
    (by simp [rangeMaxCoordsOf]) hFLr hLFr
  have hfirstC := mbrFirst_spec cmpColList cmpColList_asym cmpColList_trans_lt_le
    cmpColList_trans_le_lt dimNumC Tc (tileFirstCoords dimNumC bcC) (tileLastCoords dimNumC bcC)
    (rangeMinCoordsOf dimNumC rangeC)
    (by intro t; simp [tileFirstCoords]) (by intro t; simp [tileLastCoords])
    (by simp [rangeMinCoordsOf]) hFLc hLFc
  have hlastC := mbrLast_spec cmpColList cmpColList_asym cmpColList_trans_lt_le
    cmpColList_trans_le_lt dimNumC Tc (tileFirstCoords dimNumC bcC) (tileLastCoords dimNumC bcC)
    (rangeMaxCoordsOf dimNumC rangeC)
    (by intro t; simp [tileFirstCoords]) (by intro t; simp [tileLastCoords])
    (by simp [rangeMaxCoordsOf]) hFLc hLFc
  have e1R : (initTileSearchRangeRow dimNum T bcR rangeR).1 = tileSearchFirst
      (mbrProbe cmpRowList (tileFirstCoords dimNum bcR) (tileLastCoords dimNum bcR)
        (rangeMinCoordsOf dimNum rangeR)) T := by
    cases hu : isUnaryRange dimNum rangeR <;> simp [initTileSearchRangeRow, hu]
  have e1C : (initTileSearchRangeCol dimNumC Tc bcC rangeC).1 = tileSearchFirst
      (mbrProbe cmpColList (tileFirstCoords dimNumC bcC) (tileLastCoords dimNumC bcC)
        (rangeMinCoordsOf dimNumC rangeC)) Tc := by
    cases hu : isUnaryRange dimNumC rangeC <;> simp [initTileSearchRangeCol, hu]
  refine ⟨⟨?_, ?_, ?_, ?_⟩, ?_, ?_, ?_, ?_⟩
  · rw [e1R]; exact hfirstR.1
  · intro t ht; rw [e1R]; exact hfirstR.2 t ht
  · intro hu; simp [initTileSearchRangeRow, hu]
  · intro hu
    have e2R : (initTileSearchRangeRow dimNum T bcR rangeR).2 = tileSearchLast
        (mbrProbe cmpRowList (tileFirstCoords dimNum bcR) (tileLastCoords dimNum bcR)
          (rangeMaxCoordsOf dimNum rangeR)) T := by
      simp [initTileSearchRangeRow, hu]
    refine ⟨by rw [e2R]; exact hlastR.1, ?_⟩
    intro t ht
    rw [e2R]
    exact hlastR.2 t ht
  · rw [e1C]; exact hfirstC.1
  · intro t ht; rw [e1C]; exact hfirstC.2 t ht
  · intro hu; simp [initTileSearchRangeCol, hu]
  · intro hu
    have e2C : (initTileSearchRangeCol dimNumC Tc bcC rangeC).2 = tileSearchLast
        (mbrProbe cmpColList (tileFirstCoords dimNumC bcC) (tileLastCoords dimNumC bcC)
          (rangeMaxCoordsOf dimNumC rangeC)) Tc := by
      simp [initTileSearchRangeCol, hu]
    refine ⟨by rw [e2C]; exact hlastC.1, ?_⟩
    intro t ht
    rw [e2C]
    exact hlastC.2 t ht

/-- Witness for C6: a one-dimensional fragment of two tiles with bounding
intervals `[0,1]` and `[3,4]` and the non-unary query range `[1,3]`; the
sortedness hypotheses hold by evaluation, the initialisers return `(0, 1)`
for both layouts, and the theorem applies. -/
theorem initTileSearchRange_row_col_bounds_witness :
    ((∀ t, t < 2 →
        cmpRowList (tileFirstCoords 1 c6BC t) (tileLastCoords 1 c6BC t) ≤ 0) ∧
     (∀ t, t + 1 < 2 →
        cmpRowList (tileLastCoords 1 c6BC t) (tileFirstCoords 1 c6BC (t + 1)) < 0) ∧
     (∀ t, t < 2 →
        cmpColList (tileFirstCoords 1 c6BC t) (tileLastCoords 1 c6BC t) ≤ 0) ∧
     (∀ t, t + 1 < 2 →
        cmpColList (tileLastCoords 1 c6BC t) (tileFirstCoords 1 c6BC (t + 1)) < 0) ∧
     initTileSearchRangeRow 1 2 c6BC c6QR = (0, 1) ∧
     initTileSearchRangeCol 1 2 c6BC c6QR = (0, 1)) ∧
    ((0 ≤ (initTileSearchRangeRow 1 2 c6BC c6QR).1 ∧
      (∀ t : Nat, t < 2 →
        (cmpRowList (rangeMinCoordsOf 1 c6QR) (tileLastCoords 1 c6BC t) ≤ 0 ↔
         (initTileSearchRangeRow 1 2 c6BC c6QR).1 ≤ (t : Int))) ∧
      (isUnaryRange 1 c6QR = true →
        (initTileSearchRangeRow 1 2 c6BC c6QR).2 =
        (initTileSearchRangeRow 1 2 c6BC c6QR).1) ∧
      (isUnaryRange 1 c6QR = false →
        (initTileSearchRangeRow 1 2 c6BC c6QR).2 ≤ ((2 : Nat) : Int) - 1 ∧
        ∀ t : Nat, t < 2 →
          (0 ≤ cmpRowList (rangeMaxCoordsOf 1 c6QR) (tileFirstCoords 1 c6BC t) ↔
           (t : Int) ≤ (initTileSearchRangeRow 1 2 c6BC c6QR).2))) ∧
     (0 ≤ (initTileSearchRangeCol 1 2 c6BC c6QR).1 ∧
      (∀ t : Nat, t < 2 →
        (cmpColList (rangeMinCoordsOf 1 c6QR) (tileLastCoords 1 c6BC t) ≤ 0 ↔
         (initTileSearchRangeCol 1 2 c6BC c6QR).1 ≤ (t : Int))) ∧
      (isUnaryRange 1 c6QR = true →
        (initTileSearchRangeCol 1 2 c6BC c6QR).2 =
        (initTileSearchRangeCol 1 2 c6BC c6QR).1) ∧
      (isUnaryRange 1 c6QR = false →
        (initTileSearchRangeCol 1 2 c6BC c6QR).2 ≤ ((2 : Nat) : Int) - 1 ∧
        ∀ t : Nat, t < 2 →
          (0 ≤ cmpColList (rangeMaxCoordsOf 1 c6QR) (tileFirstCoords 1 c6BC t) ↔
           (t : Int) ≤ (initTileSearchRangeCol 1 2 c6BC c6QR).2)))) :=
  ⟨⟨by intro t ht; interval_cases t <;> decide,
    by intro t ht; have h0 : t = 0 := (by omega); subst h0; decide,
    by intro t ht; interval_cases t <;> decide,
    by intro t ht; have h0 : t = 0 := (by omega); subst h0; decide,
    by decide, by decide⟩,
   initTileSearchRange_row_col_bounds 1 2 c6BC c6QR 1 2 c6BC c6QR
     (by intro t ht; interval_cases t <;> decide)
     (by intro t ht; have h0 : t = 0 := (by omega); subst h0; decide)
     (by intro t ht; interval_cases t <;> decide)
     (by intro t ht; have h0 : t = 0 := (by omega); subst h0; decide)⟩

end TileDBRS
